import Mathlib

/-!
Ray-triangle intersection benchmark (perftest.go)

A shallow embedding of `src/go/perftest.go`, in two readings of its
floating-point arithmetic.

Modelling conventions.

* Exact reading.  Floating-point values are modelled by the elements of a
  linear ordered field `K` (exact arithmetic); `float32(...)`/`float64(...)`
  conversions are the identity.  The definitions are computable for `K = ℚ`
  and the theorems hold for every linear ordered field, in particular for `ℝ`.
  The no-hit sentinel `float32(math.Inf(-1))` is modelled by `none`; a finite
  return value `t` by `some t`.  The comparison `t >= 0` on the sentinel is
  false (negative infinity is below zero).  The statements about exact (real)
  arithmetic are made in this reading.
* `float32` reading.  A floating-point datum is a `Flt`: NaN, an infinity, or
  a finite number given by its rational value.  Every operation of the program
  is the exact operation followed by `roundTo`, rounding to nearest with ties
  to even in IEEE 754 binary32 (binary64 for the `float64` operations of
  `random_sphere`); comparisons with NaN are false.  The definitions of this
  reading carry the suffix `32` (`ray_triangle_intersect32`, `worker32`, ...);
  the sentinel is `Flt.inf true`.  The statements about the values the program
  computes are made in this reading.
* Go `int` is the 64-bit two's complement integer: the additions on the
  counters, the product `num_tests`, the length `numTriangles * 3` and the
  index expressions `i*3 + k` of `generate_random_triangles` are followed by
  `wrapInt`.  The loop variables of the worker and its slice indices are
  natural numbers (they stay below the loop bound, which for `main` is a
  constant).
* The functions of package `math` and the random sources of package `rand`
  are not part of the repository; they are parameters (`MathFns`, `RandSrc`).
  A generator is a state of type `G` and a draw returns the value together
  with the next state.
* A run-time panic (slice index out of range, `make` with a negative length)
  or a receive that blocks for ever is `none` in the `Option`-valued
  functions.
* A slice `[]Vec3` is a `List` of vectors.
-/

namespace RayTriangle

/-- The Go struct `Vec3` with components `x, y, z`. -/
structure Vec3 (K : Type) where
  x : K
  y : K
  z : K
deriving DecidableEq

/-- The Go struct `Ray` with fields `Orig, Direction`. -/
structure Ray (K : Type) where
  Orig : Vec3 K
  Direction : Vec3 K
deriving DecidableEq

section VectorMath

variable {K : Type} [LinearOrderedField K]

/-- Method `func (self Vec3) Sub(v Vec3) Vec3`. -/
def Vec3.Sub (self v : Vec3 K) : Vec3 K :=
  ⟨self.x - v.x, self.y - v.y, self.z - v.z⟩

/-- Method `func (self Vec3) Dot(v Vec3) float32`. -/
def Vec3.Dot (self v : Vec3 K) : K :=
  self.x * v.x + self.y * v.y + self.z * v.z

/-- Method `func (self Vec3) Cross(v Vec3) Vec3`. -/
def Vec3.Cross (self v : Vec3 K) : Vec3 K :=
  ⟨self.y * v.z - self.z * v.y,
   self.z * v.x - self.x * v.z,
   self.x * v.y - self.y * v.x⟩

/-- The literal `0.000001` of the determinant test. -/
def EPSILON : K := 1 / 1000000

/-- Function `ray_triangle_intersect`; `none` is the sentinel
`float32(math.Inf(-1))`. -/
def ray_triangle_intersect (r : Ray K) (v0 v1 v2 : Vec3 K) : Option K :=
  let v0v1 := v1.Sub v0
  let v0v2 := v2.Sub v0
  let pvec := r.Direction.Cross v0v2
  let det := v0v1.Dot pvec
  if det < EPSILON then
    none
  else
    let invDet := 1 / det
    let tvec := r.Orig.Sub v0
    let u := tvec.Dot pvec * invDet
    if u < 0 ∨ u > 1 then
      none
    else
      let qvec := tvec.Cross v0v1
      let v := r.Direction.Dot qvec * invDet
      if v < 0 ∨ u + v > 1 then
        none
      else
        some (v0v2.Dot qvec * invDet)

/-- The local `det` of `ray_triangle_intersect`:
`v0v1.Dot(r.Direction.Cross(v0v2))`. -/
def rtiDet (r : Ray K) (v0 v1 v2 : Vec3 K) : K :=
  (v1.Sub v0).Dot (r.Direction.Cross (v2.Sub v0))

/-- The local `u` of `ray_triangle_intersect`:
`tvec.Dot(pvec) * invDet` with `invDet = 1.0 / det`. -/
def rtiU (r : Ray K) (v0 v1 v2 : Vec3 K) : K :=
  (r.Orig.Sub v0).Dot (r.Direction.Cross (v2.Sub v0)) * (1 / rtiDet r v0 v1 v2)

/-- The local `v` of `ray_triangle_intersect`:
`r.Direction.Dot(qvec) * invDet` with `qvec = tvec.Cross(v0v1)`. -/
def rtiV (r : Ray K) (v0 v1 v2 : Vec3 K) : K :=
  r.Direction.Dot ((r.Orig.Sub v0).Cross (v1.Sub v0)) * (1 / rtiDet r v0 v1 v2)

/-- The value of the final `return` of `ray_triangle_intersect`:
`v0v2.Dot(qvec) * invDet`. -/
def rtiT (r : Ray K) (v0 v1 v2 : Vec3 K) : K :=
  (v2.Sub v0).Dot ((r.Orig.Sub v0).Cross (v1.Sub v0)) * (1 / rtiDet r v0 v1 v2)

end VectorMath

/-- Reduction of a mathematical integer to the Go `int` (64-bit, two's
complement) it is stored as. -/
def wrapInt (x : Int) : Int := (x + 2 ^ 63) % 2 ^ 64 - 2 ^ 63

/-- The functions and constants of package `math` used by the program. -/
structure MathFns (K : Type) where
  Sqrt : K → K
  Acos : K → K
  Cos : K → K
  Sin : K → K
  Pi : K

/-- The random sources: `Float32` is the draw `rand.Float32()` from the global
source, `Float64` the draw `rgen.Float64()` from a worker's generator. -/
structure RandSrc (K : Type) (G : Type) where
  Float32 : G → K × G
  Float64 : G → K × G

/-- The Go struct `Result`. -/
structure Result where
  numHit : Int
  numMiss : Int
deriving DecidableEq

/-- What `main` has computed when it prints: the two totals and `num_tests`. -/
structure Output where
  numHit : Int
  numMiss : Int
  num_tests : Int
deriving DecidableEq

/-- The loop `for i := 0; i < n; i++ { body }` acting on a state. -/
def forLoop {σ : Type} (body : Nat → σ → Option σ) : Nat → σ → Option σ
  | 0, s => some s
  | n + 1, s => (forLoop body n s).bind (body n)

/-- The assignment `s[idx] = v` on a slice, with the bounds check of the index
expression (an `int`). -/
def sliceSet {α : Type} (s : List α) (idx : Int) (v : α) : Option (List α) :=
  if 0 ≤ idx ∧ idx < s.length then some (s.set idx.toNat v) else none

/-- The assignment `s[idx] = v` on a slice that carries a ghost log of the
indices assigned so far: the log grows by `idx` exactly when the assignment is
carried out. -/
def sliceSetLog {α : Type} (s : List α × List Int) (idx : Int) (v : α) :
    Option (List α × List Int) :=
  (sliceSet s.1 idx v).map fun s1 => (s1, s.2 ++ [idx])

/-- The call `make([]T, n)`: a slice of `n` zero values, a panic for negative
`n`.  Memory is not bounded: the allocation of a non-negative length
succeeds. -/
def makeSlice {α : Type} (zero : α) (n : Int) : Option (List α) :=
  if n < 0 then none else some (List.replicate n.toNat zero)

/-- The body of `generate_random_triangles`, with the zero value of the element
type and the vertex generator as arguments. -/
def generateWith {α G : Type} (zero : α) (rv : G → α × G) (numTriangles : Int) (g : G) :
    Option (List α × G) :=
  (makeSlice zero (wrapInt (numTriangles * 3))).bind fun vertices =>
  forLoop
    (fun i (st : List α × G) =>
      let a := rv st.2
      (sliceSet st.1 (wrapInt (wrapInt ((i : Int) * 3) + 0)) a.1).bind fun s1 =>
      let b := rv a.2
      (sliceSet s1 (wrapInt (wrapInt ((i : Int) * 3) + 1)) b.1).bind fun s2 =>
      let c := rv b.2
      (sliceSet s2 (wrapInt (wrapInt ((i : Int) * 3) + 2)) c.1).map fun s3 => (s3, c.2))
    numTriangles.toNat (vertices, g)

/-- The body of `generate_random_triangles` run on a slice with a ghost log. -/
def generateWithLog {α G : Type} (zero : α) (rv : G → α × G) (numTriangles : Int) (g : G) :
    Option ((List α × List Int) × G) :=
  (makeSlice zero (wrapInt (numTriangles * 3))).bind fun vertices =>
  forLoop
    (fun i (st : (List α × List Int) × G) =>
      let a := rv st.2
      (sliceSetLog st.1 (wrapInt (wrapInt ((i : Int) * 3) + 0)) a.1).bind fun s1 =>
      let b := rv a.2
      (sliceSetLog s1 (wrapInt (wrapInt ((i : Int) * 3) + 1)) b.1).bind fun s2 =>
      let c := rv b.2
      (sliceSetLog s2 (wrapInt (wrapInt ((i : Int) * 3) + 2)) c.1).map fun s3 => (s3, c.2))
    numTriangles.toNat ((vertices, []), g)

/-- The state of a source after `k` successive calls of the vertex generator. -/
def drawnState {α G : Type} (rv : G → α × G) (g : G) : Nat → G
  | 0 => g
  | k + 1 => (rv (drawnState rv g k)).2

section Program

variable {K : Type} [LinearOrderedField K] {G : Type}

/-- Method `func (self Vec3) Length() float32`. -/
def Vec3.Length (m : MathFns K) (self : Vec3 K) : K :=
  m.Sqrt (self.x * self.x + self.y * self.y + self.z * self.z)

/-- Method `func (self Vec3) Normalize() Vec3`. -/
def Vec3.Normalize (m : MathFns K) (self : Vec3 K) : Vec3 K :=
  let len := self.Length m
  ⟨self.x / len, self.y / len, self.z / len⟩

/-- Function `random_vertex`, drawing from the global source in state `g`. -/
def random_vertex (rs : RandSrc K G) (g : G) : Vec3 K × G :=
  let a := rs.Float32 g
  let b := rs.Float32 a.2
  let c := rs.Float32 b.2
  (⟨a.1 * 2 - 1, b.1 * 2 - 1, c.1 * 2 - 1⟩, c.2)

/-- Function `generate_random_triangles`. -/
def generate_random_triangles (rs : RandSrc K G) (numTriangles : Int) (g : G) :
    Option (List (Vec3 K) × G) :=
  generateWith ⟨0, 0, 0⟩ (random_vertex rs) numTriangles g

/-- Function `generate_random_triangles` run on a slice with a ghost log of the
indices assigned. -/
def generate_random_triangles_log (rs : RandSrc K G) (numTriangles : Int) (g : G) :
    Option ((List (Vec3 K) × List Int) × G) :=
  generateWithLog ⟨0, 0, 0⟩ (random_vertex rs) numTriangles g

/-- Function `random_sphere`. -/
def random_sphere (m : MathFns K) (rs : RandSrc K G) (rgen : G) : Vec3 K × G :=
  let r1 := rs.Float64 rgen
  let r2 := rs.Float64 r1.2
  let lat := m.Acos (2 * r1.1 - 1) - m.Pi / 2
  let lon := 2 * m.Pi * r2.1
  (⟨m.Cos lat * m.Cos lon, m.Cos lat * m.Sin lon, m.Sin lat⟩, r2.2)

/-- Constant `NUM_RAYS`. -/
def NUM_RAYS : Nat := 400

/-- Constant `NUM_TRIANGLES`. -/
def NUM_TRIANGLES : Nat := 1000 * 1000

/-- The comparison `t >= 0` of the worker on a value returned by
`ray_triangle_intersect`. -/
def geZero : Option K → Bool
  | none => false
  | some t => decide (t ≥ 0)

/-- The statement `if t >= 0 { numHit += 1 } else { numMiss += 1 }`. -/
def tally (t : Option K) (res : Result) : Result :=
  if geZero t then ⟨wrapInt (res.numHit + 1), res.numMiss⟩
  else ⟨res.numHit, wrapInt (res.numMiss + 1)⟩

/-- Body of the worker's loop over `j`: one intersection test and its
classification. -/
def testTriangle (vertices : List (Vec3 K)) (r : Ray K) (j : Nat) (res : Result) :
    Option Result :=
  vertices[j * 3 + 0]?.bind fun v0 =>
  vertices[j * 3 + 1]?.bind fun v1 =>
  vertices[j * 3 + 2]?.bind fun v2 =>
  some (tally (ray_triangle_intersect r v0 v1 v2) res)

/-- The two assignments to `r.Orig` and `r.Direction` at the head of the
worker's loop over the rays. -/
def sampleRay (m : MathFns K) (rs : RandSrc K G) (rgen : G) : Ray K × G :=
  let o := random_sphere m rs rgen
  let tg := random_sphere m rs o.2
  (⟨o.1, (tg.1.Sub o.1).Normalize m⟩, tg.2)

/-- The goroutine of `main`, with the captured `vertices` and `num_vertices`,
the number of rays and the freshly seeded generator as arguments; the value is
the `Result` it sends. -/
def worker (m : MathFns K) (rs : RandSrc K G) (numRays : Nat) (vertices : List (Vec3 K))
    (num_vertices : Nat) (rgen : G) : Option Result :=
  (forLoop
    (fun _ (st : G × Result) =>
      let s := sampleRay m rs st.1
      (forLoop (testTriangle vertices s.1) (num_vertices / 3) st.2).map fun res => (s.2, res))
    numRays (rgen, ⟨0, 0⟩)).map Prod.snd

/-- The two statements `numHit += result.numHit; numMiss += result.numMiss`. -/
def addResult (acc result : Result) : Result :=
  ⟨wrapInt (acc.numHit + result.numHit), wrapInt (acc.numMiss + result.numMiss)⟩

/-- The receiving loop of `main`: `resultChan` lists the results in the order
they arrive; a receive with nothing left to arrive never returns. -/
def coordinator (nParallel : Int) (resultChan : List Result) : Option Result :=
  forLoop (fun i acc => resultChan[i]?.map (addResult acc)) nParallel.toNat ⟨0, 0⟩

/-- Function `main` with the two constants as arguments.  `g0` is the state of
the global source at start, `seeds i` the generator worker `i` creates from
its clock reading, `arrival` the order in which the workers deliver their
results (a permutation of the worker indices `0 .. nParallel - 1`). -/
def mainWith (m : MathFns K) (rs : RandSrc K G) (numRays numTriangles : Nat) (g0 : G)
    (nParallel : Int) (seeds : Nat → G) (arrival : List Nat) : Option Output :=
  (generate_random_triangles rs numTriangles g0).bind fun scene =>
  let vertices := scene.1
  let num_vertices := numTriangles * 3
  (arrival.mapM fun i => worker m rs numRays vertices num_vertices (seeds i)).bind
    fun resultChan =>
  (coordinator nParallel resultChan).map fun total =>
  ⟨total.numHit, total.numMiss, wrapInt (wrapInt (numRays * numTriangles) * nParallel)⟩

/-- Function `main`. -/
def main (m : MathFns K) (rs : RandSrc K G) (g0 : G) (nParallel : Int) (seeds : Nat → G)
    (arrival : List Nat) : Option Output :=
  mainWith m rs NUM_RAYS NUM_TRIANGLES g0 nParallel seeds arrival

end Program

section FloatModel

/-! The float32 reading of the program.  A floating-point datum is NaN, an
infinity, or a finite number given by its rational value; an operation on
finite data is the exact operation followed by rounding to nearest, ties to
even, in the format of its type (IEEE 754 binary32 for `float32`, binary64 for
`float64`), each operation rounded on its own (no fused multiply-add).  Zero
carries no sign: the only divisors of the program that can be zero are the
results of `Length`, which are `+0`. -/

/-- A `float32` or `float64` datum; `inf true` is negative infinity. -/
inductive Flt where
  | nan : Flt
  | inf (neg : Bool) : Flt
  | fin (q : ℚ) : Flt
deriving DecidableEq

/-- Number of binary digits of `n`, computed with `fuel ≥ n` steps. -/
def bitLen : Nat → Nat → Nat
  | 0, _ => 0
  | fuel + 1, n => if n = 0 then 0 else bitLen fuel (n / 2) + 1

/-- The binary exponent of a non-zero rational: the `e` with
`2^e ≤ |x| < 2^(e+1)`. -/
def ilog2 (x : ℚ) : ℤ :=
  let e0 : ℤ := (bitLen x.num.natAbs x.num.natAbs : ℤ) - (bitLen x.den x.den : ℤ)
  if (2 : ℚ) ^ e0 ≤ |x| then e0 else e0 - 1

/-- Rounding of a rational to the nearest integer, ties to the even one. -/
def rne (x : ℚ) : ℤ :=
  if x - ⌊x⌋ < 1 / 2 then ⌊x⌋
  else if 1 / 2 < x - ⌊x⌋ then ⌊x⌋ + 1
  else if ⌊x⌋ % 2 = 0 then ⌊x⌋ else ⌊x⌋ + 1

/-- A binary floating-point format: digits of the significand, exponent of the
smallest normal number, exponent of the largest finite number. -/
structure FloatFormat where
  prec : ℤ
  emin : ℤ
  emax : ℤ

/-- The format of `float32`. -/
def binary32 : FloatFormat := ⟨24, -126, 127⟩

/-- The format of `float64`. -/
def binary64 : FloatFormat := ⟨53, -1022, 1023⟩

/-- Rounding of an exact result to the format: to the nearest multiple of the
unit in the last place of its binade (of the subnormal unit below the smallest
normal number), ties to even, and to an infinity from `2^(emax+1)` on. -/
def roundTo (f : FloatFormat) (x : ℚ) : Flt :=
  let e := max (ilog2 x) f.emin
  let ulp : ℚ := 2 ^ (e - (f.prec - 1))
  let y : ℚ := rne (x / ulp) * ulp
  if (2 : ℚ) ^ (f.emax + 1) ≤ |y| then Flt.inf (decide (y < 0)) else Flt.fin y

/-- Unary minus. -/
def Flt.neg : Flt → Flt
  | Flt.nan => Flt.nan
  | Flt.inf s => Flt.inf (!s)
  | Flt.fin q => Flt.fin (-q)

/-- The operation `a + b` in the format `f`. -/
def Flt.add (f : FloatFormat) : Flt → Flt → Flt
  | Flt.nan, _ => Flt.nan
  | _, Flt.nan => Flt.nan
  | Flt.inf s, Flt.inf t => if s = t then Flt.inf s else Flt.nan
  | Flt.inf s, Flt.fin _ => Flt.inf s
  | Flt.fin _, Flt.inf t => Flt.inf t
  | Flt.fin a, Flt.fin b => roundTo f (a + b)

/-- The operation `a - b` in the format `f`. -/
def Flt.sub (f : FloatFormat) (a b : Flt) : Flt := Flt.add f a b.neg

/-- The operation `a * b` in the format `f`. -/
def Flt.mul (f : FloatFormat) : Flt → Flt → Flt
  | Flt.nan, _ => Flt.nan
  | _, Flt.nan => Flt.nan
  | Flt.inf s, Flt.inf t => Flt.inf (s != t)
  | Flt.inf s, Flt.fin b => if b = 0 then Flt.nan else Flt.inf (s != decide (b < 0))
  | Flt.fin a, Flt.inf t => if a = 0 then Flt.nan else Flt.inf (decide (a < 0) != t)
  | Flt.fin a, Flt.fin b => roundTo f (a * b)

/-- The operation `a / b` in the format `f`. -/
def Flt.div (f : FloatFormat) : Flt → Flt → Flt
  | Flt.nan, _ => Flt.nan
  | _, Flt.nan => Flt.nan
  | Flt.inf _, Flt.inf _ => Flt.nan
  | Flt.inf s, Flt.fin b => Flt.inf (s != decide (b < 0))
  | Flt.fin _, Flt.inf _ => Flt.fin 0
  | Flt.fin a, Flt.fin b =>
    if b = 0 then (if a = 0 then Flt.nan else Flt.inf (decide (a < 0)))
    else roundTo f (a / b)

/-- The comparison `a < b`; false when an operand is NaN. -/
def Flt.lt : Flt → Flt → Bool
  | Flt.nan, _ => false
  | _, Flt.nan => false
  | Flt.inf s, Flt.inf t => s && !t
  | Flt.inf s, Flt.fin _ => s
  | Flt.fin _, Flt.inf t => !t
  | Flt.fin a, Flt.fin b => decide (a < b)

/-- The comparison `a > b`; false when an operand is NaN. -/
def Flt.gt (a b : Flt) : Bool := Flt.lt b a

/-- The comparison `a >= b`; false when an operand is NaN. -/
def Flt.ge : Flt → Flt → Bool
  | Flt.nan, _ => false
  | _, Flt.nan => false
  | a, b => !Flt.lt a b

/-- The conversion `float32(x)` of a `float64`. -/
def Flt.to32 : Flt → Flt
  | Flt.nan => Flt.nan
  | Flt.inf s => Flt.inf s
  | Flt.fin q => roundTo binary32 q

variable {G : Type}

/-- Method `Sub` on `float32` components. -/
def Vec3.Sub32 (self v : Vec3 Flt) : Vec3 Flt :=
  ⟨Flt.sub binary32 self.x v.x, Flt.sub binary32 self.y v.y, Flt.sub binary32 self.z v.z⟩

/-- Method `Dot` on `float32` components: `self.x*v.x + self.y*v.y + self.z*v.z`
associates to the left. -/
def Vec3.Dot32 (self v : Vec3 Flt) : Flt :=
  Flt.add binary32 (Flt.add binary32 (Flt.mul binary32 self.x v.x) (Flt.mul binary32 self.y v.y))
    (Flt.mul binary32 self.z v.z)

/-- Method `Cross` on `float32` components. -/
def Vec3.Cross32 (self v : Vec3 Flt) : Vec3 Flt :=
  ⟨Flt.sub binary32 (Flt.mul binary32 self.y v.z) (Flt.mul binary32 self.z v.y),
   Flt.sub binary32 (Flt.mul binary32 self.z v.x) (Flt.mul binary32 self.x v.z),
   Flt.sub binary32 (Flt.mul binary32 self.x v.y) (Flt.mul binary32 self.y v.x)⟩

/-- Method `Length`: the sum of squares in `float32`, `math.Sqrt` on its
conversion to `float64` (exact), and the conversion of the root to `float32`. -/
def Vec3.Length32 (m : MathFns Flt) (self : Vec3 Flt) : Flt :=
  Flt.to32 (m.Sqrt (Flt.add binary32
    (Flt.add binary32 (Flt.mul binary32 self.x self.x) (Flt.mul binary32 self.y self.y))
    (Flt.mul binary32 self.z self.z)))

/-- Method `Normalize` on `float32` components. -/
def Vec3.Normalize32 (m : MathFns Flt) (self : Vec3 Flt) : Vec3 Flt :=
  let len := self.Length32 m
  ⟨Flt.div binary32 self.x len, Flt.div binary32 self.y len, Flt.div binary32 self.z len⟩

/-- The literal `0.000001` converted to `float32` for the comparison with
`det`. -/
def EPSILON32 : Flt := roundTo binary32 (1 / 1000000)

/-- Function `ray_triangle_intersect` in `float32`; the sentinel
`float32(math.Inf(-1))` is `Flt.inf true`. -/
def ray_triangle_intersect32 (r : Ray Flt) (v0 v1 v2 : Vec3 Flt) : Flt :=
  let v0v1 := v1.Sub32 v0
  let v0v2 := v2.Sub32 v0
  let pvec := r.Direction.Cross32 v0v2
  let det := v0v1.Dot32 pvec
  if Flt.lt det EPSILON32 then
    Flt.inf true
  else
    let invDet := Flt.div binary32 (Flt.fin 1) det
    let tvec := r.Orig.Sub32 v0
    let u := Flt.mul binary32 (tvec.Dot32 pvec) invDet
    if Flt.lt u (Flt.fin 0) || Flt.gt u (Flt.fin 1) then
      Flt.inf true
    else
      let qvec := tvec.Cross32 v0v1
      let v := Flt.mul binary32 (r.Direction.Dot32 qvec) invDet
      if Flt.lt v (Flt.fin 0) || Flt.gt (Flt.add binary32 u v) (Flt.fin 1) then
        Flt.inf true
      else
        Flt.mul binary32 (v0v2.Dot32 qvec) invDet

/-- The local `det` of `ray_triangle_intersect` in `float32`. -/
def rtiDet32 (r : Ray Flt) (v0 v1 v2 : Vec3 Flt) : Flt :=
  (v1.Sub32 v0).Dot32 (r.Direction.Cross32 (v2.Sub32 v0))

/-- The local `u` of `ray_triangle_intersect` in `float32`. -/
def rtiU32 (r : Ray Flt) (v0 v1 v2 : Vec3 Flt) : Flt :=
  Flt.mul binary32 ((r.Orig.Sub32 v0).Dot32 (r.Direction.Cross32 (v2.Sub32 v0)))
    (Flt.div binary32 (Flt.fin 1) (rtiDet32 r v0 v1 v2))

/-- The local `v` of `ray_triangle_intersect` in `float32`. -/
def rtiV32 (r : Ray Flt) (v0 v1 v2 : Vec3 Flt) : Flt :=
  Flt.mul binary32 (r.Direction.Dot32 ((r.Orig.Sub32 v0).Cross32 (v1.Sub32 v0)))
    (Flt.div binary32 (Flt.fin 1) (rtiDet32 r v0 v1 v2))

/-- The value of the final `return` of `ray_triangle_intersect` in `float32`. -/
def rtiT32 (r : Ray Flt) (v0 v1 v2 : Vec3 Flt) : Flt :=
  Flt.mul binary32 ((v2.Sub32 v0).Dot32 ((r.Orig.Sub32 v0).Cross32 (v1.Sub32 v0)))
    (Flt.div binary32 (Flt.fin 1) (rtiDet32 r v0 v1 v2))

/-- Function `random_vertex` in `float32`. -/
def random_vertex32 (rs : RandSrc Flt G) (g : G) : Vec3 Flt × G :=
  let a := rs.Float32 g
  let b := rs.Float32 a.2
  let c := rs.Float32 b.2
  (⟨Flt.sub binary32 (Flt.mul binary32 a.1 (Flt.fin 2)) (Flt.fin 1),
    Flt.sub binary32 (Flt.mul binary32 b.1 (Flt.fin 2)) (Flt.fin 1),
    Flt.sub binary32 (Flt.mul binary32 c.1 (Flt.fin 2)) (Flt.fin 1)⟩, c.2)

/-- Function `generate_random_triangles` in `float32`. -/
def generate_random_triangles32 (rs : RandSrc Flt G) (numTriangles : Int) (g : G) :
    Option (List (Vec3 Flt) × G) :=
  generateWith ⟨Flt.fin 0, Flt.fin 0, Flt.fin 0⟩ (random_vertex32 rs) numTriangles g

/-- Function `random_sphere`: `float64` arithmetic on the draws, with the
constants `math.Pi/2` and `2*math.Pi` obtained from the `float64` value of
`math.Pi` by exact scaling, and conversion of the components to `float32`. -/
def random_sphere32 (m : MathFns Flt) (rs : RandSrc Flt G) (rgen : G) : Vec3 Flt × G :=
  let r1 := rs.Float64 rgen
  let r2 := rs.Float64 r1.2
  let lat := Flt.sub binary64 (m.Acos (Flt.sub binary64 (Flt.mul binary64 (Flt.fin 2) r1.1)
    (Flt.fin 1))) (Flt.div binary64 m.Pi (Flt.fin 2))
  let lon := Flt.mul binary64 (Flt.mul binary64 (Flt.fin 2) m.Pi) r2.1
  (⟨Flt.to32 (Flt.mul binary64 (m.Cos lat) (m.Cos lon)),
    Flt.to32 (Flt.mul binary64 (m.Cos lat) (m.Sin lon)),
    Flt.to32 (m.Sin lat)⟩, r2.2)

/-- The statement `if t >= 0 { numHit += 1 } else { numMiss += 1 }` on a
`float32` value `t`. -/
def tally32 (t : Flt) (res : Result) : Result :=
  if Flt.ge t (Flt.fin 0) then ⟨wrapInt (res.numHit + 1), res.numMiss⟩
  else ⟨res.numHit, wrapInt (res.numMiss + 1)⟩

/-- Body of the worker's loop over `j` in `float32`. -/
def testTriangle32 (vertices : List (Vec3 Flt)) (r : Ray Flt) (j : Nat) (res : Result) :
    Option Result :=
  vertices[j * 3 + 0]?.bind fun v0 =>
  vertices[j * 3 + 1]?.bind fun v1 =>
  vertices[j * 3 + 2]?.bind fun v2 =>
  some (tally32 (ray_triangle_intersect32 r v0 v1 v2) res)

/-- The two assignments to `r.Orig` and `r.Direction` in `float32`. -/
def sampleRay32 (m : MathFns Flt) (rs : RandSrc Flt G) (rgen : G) : Ray Flt × G :=
  let o := random_sphere32 m rs rgen
  let tg := random_sphere32 m rs o.2
  (⟨o.1, (tg.1.Sub32 o.1).Normalize32 m⟩, tg.2)

/-- The goroutine of `main` in `float32`. -/
def worker32 (m : MathFns Flt) (rs : RandSrc Flt G) (numRays : Nat)
    (vertices : List (Vec3 Flt)) (num_vertices : Nat) (rgen : G) : Option Result :=
  (forLoop
    (fun _ (st : G × Result) =>
      let s := sampleRay32 m rs st.1
      (forLoop (testTriangle32 vertices s.1) (num_vertices / 3) st.2).map fun res => (s.2, res))
    numRays (rgen, ⟨0, 0⟩)).map Prod.snd

/-- Function `main` in `float32`, with the two constants as arguments. -/
def mainWith32 (m : MathFns Flt) (rs : RandSrc Flt G) (numRays numTriangles : Nat) (g0 : G)
    (nParallel : Int) (seeds : Nat → G) (arrival : List Nat) : Option Output :=
  (generate_random_triangles32 rs numTriangles g0).bind fun scene =>
  let vertices := scene.1
  let num_vertices := numTriangles * 3
  (arrival.mapM fun i => worker32 m rs numRays vertices num_vertices (seeds i)).bind
    fun resultChan =>
  (coordinator nParallel resultChan).map fun total =>
  ⟨total.numHit, total.numMiss, wrapInt (wrapInt (numRays * numTriangles) * nParallel)⟩

/-- A vector of finite floating-point data with the given values. -/
def Vec3.toFlt (v : Vec3 ℚ) : Vec3 Flt := ⟨Flt.fin v.x, Flt.fin v.y, Flt.fin v.z⟩

/-- A ray of finite floating-point data with the given values. -/
def Ray.toFlt (r : Ray ℚ) : Ray Flt := ⟨r.Orig.toFlt, r.Direction.toFlt⟩

end FloatModel

section Examples

/-! A concrete scene over `ℚ` on which the statements below are exercised: the
triangle `triV0, triV1, triV2` lies in the plane `x = 0` with normal
`(1, 0, 0)`. -/

/-- First vertex of the example triangle. -/
def triV0 : Vec3 ℚ := ⟨0, -1/2, -1/2⟩

/-- Second vertex of the example triangle. -/
def triV1 : Vec3 ℚ := ⟨0, 1/2, -1/2⟩

/-- Third vertex of the example triangle. -/
def triV2 : Vec3 ℚ := ⟨0, 0, 1/2⟩

/-- A ray from `(1, 0, 0)` against the normal: it meets the triangle at `t = 1`
with `u = 1/4`, `v = 1/2`. -/
def frontRay : Ray ℚ := ⟨⟨1, 0, 0⟩, ⟨-1, 0, 0⟩⟩

/-- The same direction from `(-1, 0, 0)`: the triangle lies behind the origin,
at `t = -1`. -/
def behindRay : Ray ℚ := ⟨⟨-1, 0, 0⟩, ⟨-1, 0, 0⟩⟩

/-- A ray against the normal that meets the plane of the triangle at `u = 0`,
`v = 2`. -/
def wideRay : Ray ℚ := ⟨⟨1, 1/2, 3/2⟩, ⟨-1, 0, 0⟩⟩

/-- The ray through the centroid from `centroid + 2 * normal`. -/
def centroidRay : Ray ℚ := ⟨⟨2, 0, -1/6⟩, ⟨-1, 0, 0⟩⟩

/-- A table for the functions of package `math` at the arguments the example
run evaluates them at, with `355/113` standing for the constant `Pi`:
`Sqrt 4 = 2`, `Acos 0 = Pi/2`, `Cos 0 = 1`, `Cos Pi = -1`, `Sin 0 = Sin Pi = 0`. -/
def tableMath : MathFns ℚ where
  Sqrt := fun x => if x = 4 then 2 else 0
  Acos := fun x => if x = 0 then 355 / 226 else 0
  Cos := fun x => if x = 0 then 1 else if x = 355 / 113 then -1 else 0
  Sin := fun _ => 0
  Pi := 355 / 113

/-- A random source whose state is the number of draws made so far: the global
source delivers the nine draws that make the example triangle, a worker's
generator the four draws that make `frontRay`. -/
def tableRand : RandSrc ℚ Nat where
  Float32 := fun n => ([1/2, 1/4, 1/4, 1/2, 3/4, 1/4, 1/2, 1/2, 3/4].getD n 0, n + 1)
  Float64 := fun n => ([1/2, 0, 1/2, 1/2].getD n 0, n + 1)

/-- The origin, first vertex of the triangles below. -/
def zeroV : Vec3 ℚ := ⟨0, 0, 0⟩

/-- A vertex on the x axis at twice the `float32` nearest to `0.000001`. -/
def thinV1 : Vec3 ℚ := ⟨8796093 / 2 ^ 42, 0, 0⟩

/-- A vertex on the y axis. -/
def thinV2 : Vec3 ℚ := ⟨0, 1 / 2, 0⟩

/-- A ray from `(0, 0, 1)` down the z axis. -/
def downRay : Ray ℚ := ⟨⟨0, 0, 1⟩, ⟨0, 0, -1⟩⟩

/-- The unit vertex on the x axis. -/
def unitV1 : Vec3 ℚ := ⟨1, 0, 0⟩

/-- The unit vertex on the y axis. -/
def unitV2 : Vec3 ℚ := ⟨0, 1, 0⟩

/-- A ray down the z axis that meets the plane `z = 0` at
`(1/2, 1/2 + 2^-24)`, just outside the triangle `zeroV, unitV1, unitV2`. -/
def nearEdgeRay : Ray ℚ := ⟨⟨1 / 2, 1 / 2 + 1 / 2 ^ 24, 1⟩, ⟨0, 0, -1⟩⟩

/-- A vertex in the plane `z = 0`. -/
def slantV2 : Vec3 ℚ := ⟨-2, 2, 0⟩

/-- A ray down the z axis from a far origin, `(-2^127, 2^127, 1)`. -/
def farRay : Ray ℚ := ⟨⟨-2 ^ 127, 2 ^ 127, 1⟩, ⟨0, 0, -1⟩⟩

/-- A vertex with 13-bit components. -/
def skewV1 : Vec3 ℚ := ⟨1, 4097, 4097⟩

/-- A vertex with 13-bit components. -/
def skewV2 : Vec3 ℚ := ⟨4097, 1, 4097⟩

/-- A ray from the origin in direction `(1, -1, 0)`, which lies in the plane of
`zeroV, skewV1, skewV2`. -/
def planeRay : Ray ℚ := ⟨⟨0, 0, 0⟩, ⟨1, -1, 0⟩⟩

/-- The values package `math` returns at the arguments of the example run
below (`NaN` stands for the arguments it is not evaluated at): `Pi` is the
`float64` nearest to pi, `Sqrt(4) = 2`, `Acos(0) = Pi/2`, `Cos(0) = 1`,
`Cos(Pi) = -1`, `Sin(0) = 0` and `Sin(Pi) = 0x1.1a62633145c00p-53`
(1.2246467991473515e-16). -/
def goMath : MathFns Flt where
  Sqrt := fun x => if x = Flt.fin 4 then Flt.fin 2 else Flt.nan
  Acos := fun x => if x = Flt.fin 0 then Flt.fin (884279719003555 / 2 ^ 49) else Flt.nan
  Cos := fun x =>
    if x = Flt.fin 0 then Flt.fin 1
    else if x = Flt.fin (884279719003555 / 2 ^ 48) then Flt.fin (-1) else Flt.nan
  Sin := fun x =>
    if x = Flt.fin 0 then Flt.fin 0
    else if x = Flt.fin (884279719003555 / 2 ^ 48) then Flt.fin (4851325781271 / 2 ^ 95)
    else Flt.nan
  Pi := Flt.fin (884279719003555 / 2 ^ 48)

/-- A random source whose state is the number of draws made so far: the global
source delivers nine `float32` draws, a worker's generator four `float64`
draws. -/
def edgeRand : RandSrc Flt Nat where
  Float32 := fun n =>
    (Flt.fin ([1/2, 1/2, 1/4, 1/2, 9/16, 1/2, 1/2, 1/8, 1/2 + 1 / 2 ^ 24].getD n 0), n + 1)
  Float64 := fun n => (Flt.fin ([1/2, 0, 1/2, 1/2].getD n 0), n + 1)

/-- First vertex of the triangle generated from `edgeRand`. -/
def edgeV0 : Vec3 ℚ := ⟨0, 0, -1 / 2⟩

/-- Second vertex of the triangle generated from `edgeRand`. -/
def edgeV1 : Vec3 ℚ := ⟨0, 1 / 8, 0⟩

/-- Third vertex of the triangle generated from `edgeRand`. -/
def edgeV2 : Vec3 ℚ := ⟨0, -3 / 4, 1 / 2 ^ 23⟩

/-- The ray sampled from `edgeRand` with `goMath`. -/
def edgeRay : Ray ℚ := ⟨⟨1, 0, 0⟩, ⟨-1, 4626585 / 2 ^ 76, 0⟩⟩

/-- A random source whose state is the number of draws made so far: the nine
`float32` draws of the global source make the triangle `triV0, triV1, triV2`,
and a worker's four `float64` draws make the ray `edgeRay`. -/
def hitRand : RandSrc Flt Nat where
  Float32 := fun n =>
    (Flt.fin ([1/2, 1/4, 1/4, 1/2, 3/4, 1/4, 1/2, 1/2, 3/4].getD n 0), n + 1)
  Float64 := fun n => (Flt.fin ([1/2, 0, 1/2, 1/2].getD n 0), n + 1)

/-- A random source whose every draw is `2^-30`. -/
def tinyRand : RandSrc Flt Nat where
  Float32 := fun n => (Flt.fin (1 / 2 ^ 30), n + 1)
  Float64 := fun n => (Flt.fin (1 / 2 ^ 30), n + 1)

end Examples

section IntersectLemmas

variable {K : Type} [LinearOrderedField K]

/-- The function written with its named locals: the three guards in order. -/
theorem ray_triangle_intersect_eq (r : Ray K) (v0 v1 v2 : Vec3 K) :
    ray_triangle_intersect r v0 v1 v2 =
      if rtiDet r v0 v1 v2 < EPSILON then none
      else if rtiU r v0 v1 v2 < 0 ∨ rtiU r v0 v1 v2 > 1 then none
      else if rtiV r v0 v1 v2 < 0 ∨ rtiU r v0 v1 v2 + rtiV r v0 v1 v2 > 1 then none
      else some (rtiT r v0 v1 v2) := by
  rfl

theorem EPSILON_pos : (0 : K) < EPSILON := by
  unfold EPSILON
  positivity

/-- A finite return value means all three guards were passed. -/
theorem ray_triangle_intersect_some (r : Ray K) (v0 v1 v2 : Vec3 K) (t : K)
    (h : ray_triangle_intersect r v0 v1 v2 = some t) :
    EPSILON ≤ rtiDet r v0 v1 v2 ∧ 0 ≤ rtiU r v0 v1 v2 ∧ rtiU r v0 v1 v2 ≤ 1 ∧
      0 ≤ rtiV r v0 v1 v2 ∧ rtiU r v0 v1 v2 + rtiV r v0 v1 v2 ≤ 1 ∧
      t = rtiT r v0 v1 v2 := by
  rw [ray_triangle_intersect_eq] at h
  split_ifs at h with h1 h2 h3
  simp only [not_lt, not_or, gt_iff_lt] at h1 h2 h3
  refine ⟨h1, h2.1, h2.2, h3.1, h3.2, ?_⟩
  exact (Option.some.inj h).symm

/-- Passing all three guards gives the finite return value. -/
theorem ray_triangle_intersect_pass (r : Ray K) (v0 v1 v2 : Vec3 K)
    (hd : EPSILON ≤ rtiDet r v0 v1 v2) (hu : 0 ≤ rtiU r v0 v1 v2)
    (hv : 0 ≤ rtiV r v0 v1 v2) (huv : rtiU r v0 v1 v2 + rtiV r v0 v1 v2 ≤ 1) :
    ray_triangle_intersect r v0 v1 v2 = some (rtiT r v0 v1 v2) := by
  have hu1 : rtiU r v0 v1 v2 ≤ 1 := by linarith
  rw [ray_triangle_intersect_eq]
  rw [if_neg (not_lt.mpr hd)]
  rw [if_neg (by simp only [not_or, not_lt, gt_iff_lt]; exact ⟨hu, hu1⟩)]
  rw [if_neg (by simp only [not_or, not_lt, gt_iff_lt]; exact ⟨hv, huv⟩)]

end IntersectLemmas


section Wrap

theorem wrapInt_of_range (x : Int) (h1 : -2 ^ 63 ≤ x) (h2 : x < 2 ^ 63) : wrapInt x = x := by
  unfold wrapInt
  omega

theorem wrapInt_add_left (a b : Int) : wrapInt (wrapInt a + b) = wrapInt (a + b) := by
  unfold wrapInt
  omega

theorem wrapInt_add_right (a b : Int) : wrapInt (a + wrapInt b) = wrapInt (a + b) := by
  unfold wrapInt
  omega

theorem wrapInt_zero : wrapInt 0 = 0 := by
  unfold wrapInt
  omega

end Wrap

section Loops

variable {σ : Type}

theorem forLoop_succ (body : Nat → σ → Option σ) (n : Nat) (s : σ) :
    forLoop body (n + 1) s = (forLoop body n s).bind (body n) := rfl

/-- Invariant rule for `forLoop`: a loop whose body never fails under the
invariant completes and establishes the invariant at the bound. -/
theorem forLoop_inv (body : Nat → σ → Option σ) (P : Nat → σ → Prop) (n : Nat) (s0 : σ)
    (h0 : P 0 s0)
    (hstep : ∀ i s, i < n → P i s → ∃ s1, body i s = some s1 ∧ P (i + 1) s1) :
    ∃ s1, forLoop body n s0 = some s1 ∧ P n s1 := by
  induction n with
  | zero => exact ⟨s0, rfl, h0⟩
  | succ k ih =>
    obtain ⟨s1, hs1, hP⟩ := ih (fun i s hi hp => hstep i s (Nat.lt_succ_of_lt hi) hp)
    obtain ⟨s2, hs2, hP2⟩ := hstep k s1 (Nat.lt_succ_self k) hP
    exact ⟨s2, by rw [forLoop_succ, hs1, Option.some_bind, hs2], hP2⟩

/-- A loop whose first pass fails does not complete. -/
theorem forLoop_none_of_first {σ : Type} (body : Nat → σ → Option σ) (s0 : σ)
    (h : body 0 s0 = none) (n : Nat) (hn : 0 < n) : forLoop body n s0 = none := by
  induction n with
  | zero => exact absurd hn (lt_irrefl 0)
  | succ k ih =>
    rw [forLoop_succ]
    rcases Nat.eq_zero_or_pos k with hk | hk
    · subst hk
      exact h
    · rw [ih hk]
      rfl

/-- Two loops related by a projection of the state compute related results. -/
theorem forLoop_project {σ τ : Type} (proj : τ → σ) (bodyT : Nat → τ → Option τ)
    (bodyS : Nat → σ → Option σ)
    (h : ∀ i t, (bodyT i t).map proj = bodyS i (proj t)) (n : Nat) (t : τ) :
    (forLoop bodyT n t).map proj = forLoop bodyS n (proj t) := by
  induction n with
  | zero => rfl
  | succ k ih =>
    rw [forLoop_succ, forLoop_succ, ← ih]
    cases hk : forLoop bodyT k t with
    | none => rfl
    | some t1 =>
      simp only [Option.some_bind, Option.map_some']
      exact h k t1

theorem sliceSet_natCast {α : Type} (s : List α) (j : Nat) (v : α) (h : j < s.length) :
    sliceSet s (j : Int) v = some (s.set j v) := by
  unfold sliceSet
  rw [if_pos ⟨Int.natCast_nonneg j, by exact_mod_cast h⟩, Int.toNat_natCast]

/-- Three logged assignments in a row erase to the three plain assignments. -/
theorem sliceSetLog_three {α G : Type} (s : List α × List Int) (i0 i1 i2 : Int) (a b c : α)
    (g : G) :
    ((sliceSetLog s i0 a).bind fun s1 =>
      (sliceSetLog s1 i1 b).bind fun s2 =>
      (sliceSetLog s2 i2 c).map fun s3 => (s3, g)).map (fun st => (st.1.1, st.2)) =
    (sliceSet s.1 i0 a).bind fun s1 =>
      (sliceSet s1 i1 b).bind fun s2 =>
      (sliceSet s2 i2 c).map fun s3 => (s3, g) := by
  unfold sliceSetLog
  cases h1 : sliceSet s.1 i0 a with
  | none => simp
  | some s1 =>
    cases h2 : sliceSet s1 i1 b with
    | none => simp [h2]
    | some s2 =>
      cases h3 : sliceSet s2 i2 c with
      | none => simp [h2, h3]
      | some s3 => simp [h2, h3]

/-- Erasing the log from the logging run gives the run of `generateWith`. -/
theorem generateWithLog_erase {α G : Type} (zero : α) (rv : G → α × G) (numTriangles : Int)
    (g : G) :
    (generateWithLog zero rv numTriangles g).map (fun st => (st.1.1, st.2)) =
      generateWith zero rv numTriangles g := by
  unfold generateWithLog generateWith
  cases hm : makeSlice zero (wrapInt (numTriangles * 3)) with
  | none => simp
  | some vertices =>
    simp only [Option.some_bind]
    exact forLoop_project (fun st : (List α × List Int) × G => (st.1.1, st.2)) _ _
      (fun i t => sliceSetLog_three t.1 _ _ _ _ _ _ _) _ _

theorem sliceSetLog_natCast {α : Type} (s : List α) (log : List Int) (j : Nat) (v : α)
    (h : j < s.length) :
    sliceSetLog (s, log) (j : Int) v = some (s.set j v, log ++ [(j : Int)]) := by
  unfold sliceSetLog
  rw [sliceSet_natCast s j v h]
  rfl

/-- The index expression `i*3 + k` of the generating loop does not wrap while
`3 * numTriangles` fits in an `int`. -/
theorem wrapInt_index (i k N : Nat) (hi : i < N) (hk : k < 3) (hN : (N : Int) * 3 < 2 ^ 63) :
    wrapInt (wrapInt ((i : Int) * 3) + (k : Int)) = ((i * 3 + k : Nat) : Int) := by
  have h1 : wrapInt ((i : Int) * 3) = (i : Int) * 3 := wrapInt_of_range _ (by omega) (by omega)
  rw [h1, wrapInt_of_range _ (by omega) (by omega)]
  push_cast
  ring

/-- The logging run of the generator while `3 * numTriangles` fits in an `int`:
it completes; the slice has `3 * numTriangles` entries; entry `p` is the vertex
of the `p`-th call of the vertex generator; the indices assigned are
`0, 1, ..., 3 * numTriangles - 1` in this order. -/
theorem generateWithLog_spec {α G : Type} (zero : α) (rv : G → α × G) (N : Nat) (g : G)
    (hN : (N : Int) * 3 < 2 ^ 63) :
    ∃ vertices, generateWithLog zero rv (N : Int) g =
        some ((vertices, (List.range (N * 3)).map Int.ofNat), drawnState rv g (N * 3)) ∧
      vertices.length = N * 3 ∧
      ∀ p, p < N * 3 → vertices[p]? = some (rv (drawnState rv g p)).1 := by
  have hmake : makeSlice zero (wrapInt ((N : Int) * 3)) = some (List.replicate (N * 3) zero) := by
    rw [wrapInt_of_range _ (by omega) hN]
    unfold makeSlice
    have ht : ((N : Int) * 3).toNat = N * 3 := by omega
    rw [if_neg (by omega), ht]
  obtain ⟨st, hst, hlen, hlog, hg, hall⟩ := forLoop_inv
    (fun i (st : (List α × List Int) × G) =>
      let a := rv st.2
      (sliceSetLog st.1 (wrapInt (wrapInt ((i : Int) * 3) + 0)) a.1).bind fun s1 =>
      let b := rv a.2
      (sliceSetLog s1 (wrapInt (wrapInt ((i : Int) * 3) + 1)) b.1).bind fun s2 =>
      let c := rv b.2
      (sliceSetLog s2 (wrapInt (wrapInt ((i : Int) * 3) + 2)) c.1).map fun s3 => (s3, c.2))
    (fun i st => st.1.1.length = N * 3 ∧ st.1.2 = (List.range (i * 3)).map Int.ofNat ∧
      st.2 = drawnState rv g (i * 3) ∧
      ∀ p, p < i * 3 → st.1.1[p]? = some (rv (drawnState rv g p)).1)
    N ((List.replicate (N * 3) zero, []), g)
    ⟨by simp, by simp, rfl, fun p hp => absurd hp (by omega)⟩
    (by
      rintro i ⟨⟨s, log⟩, gi⟩ hi ⟨hlen, hlog, hg, hall⟩
      simp only at hlen hlog hg hall
      have e0 := wrapInt_index i 0 N hi (by omega) hN
      have e1 := wrapInt_index i 1 N hi (by omega) hN
      have e2 := wrapInt_index i 2 N hi (by omega) hN
      simp only [Nat.cast_zero, Nat.cast_one, Nat.cast_ofNat] at e0 e1 e2
      simp only
      rw [e0, e1, e2, sliceSetLog_natCast _ _ _ _ (by omega), Option.some_bind,
        sliceSetLog_natCast _ _ _ _ (by rw [List.length_set]; omega), Option.some_bind,
        sliceSetLog_natCast _ _ _ _ (by rw [List.length_set, List.length_set]; omega),
        Option.map_some']
      refine ⟨_, rfl, by simp [hlen], ?_, ?_, ?_⟩
      · simp only [hlog]
        rw [show (i + 1) * 3 = i * 3 + 1 + 1 + 1 by ring, List.range_succ, List.range_succ,
          List.range_succ]
        simp
      · simp only [hg]
        rw [show (i + 1) * 3 = i * 3 + 1 + 1 + 1 by ring]
        rfl
      · intro p hp
        simp only [List.getElem?_set, List.length_set]
        by_cases h2 : i * 3 + 2 = p
        · rw [if_pos h2, if_pos (by omega), hg, ← h2]
          rfl
        · rw [if_neg h2]
          by_cases h1 : i * 3 + 1 = p
          · rw [if_pos h1, if_pos (by omega), hg, ← h1]
            rfl
          · rw [if_neg h1]
            by_cases h0 : i * 3 + 0 = p
            · rw [if_pos h0, if_pos (by omega), hg, ← h0]
              rfl
            · rw [if_neg h0]
              exact hall p (by omega))
  refine ⟨st.1.1, ?_, hlen, hall⟩
  unfold generateWithLog
  rw [hmake, Option.some_bind, Int.toNat_natCast, hst, ← hlog, ← hg]

/-- The generator while `3 * numTriangles` fits in an `int`: it completes with
the slice of the first `3 * numTriangles` vertices drawn. -/
theorem generateWith_spec {α G : Type} (zero : α) (rv : G → α × G) (N : Nat) (g : G)
    (hN : (N : Int) * 3 < 2 ^ 63) :
    ∃ vertices, generateWith zero rv (N : Int) g = some (vertices, drawnState rv g (N * 3)) ∧
      vertices.length = N * 3 ∧
      ∀ p, p < N * 3 → vertices[p]? = some (rv (drawnState rv g p)).1 := by
  obtain ⟨vertices, hlog, hlen, hall⟩ := generateWithLog_spec zero rv N g hN
  refine ⟨vertices, ?_, hlen, hall⟩
  rw [← generateWithLog_erase, hlog]
  rfl

end Loops

section WorkerLemmas

variable {K : Type} [LinearOrderedField K] {G : Type}

/-- The scene generator completes and returns `numTriangles * 3` vertices
while `3 * numTriangles` fits in an `int`. -/
theorem generate_random_triangles_length (rs : RandSrc K G) (numTriangles : Nat) (g : G)
    (hN : (numTriangles : Int) * 3 < 2 ^ 63) :
    ∃ vertices g1, generate_random_triangles rs numTriangles g = some (vertices, g1) ∧
      vertices.length = numTriangles * 3 := by
  obtain ⟨vertices, hgen, hlen, -⟩ :=
    generateWith_spec (⟨0, 0, 0⟩ : Vec3 K) (random_vertex rs) numTriangles g hN
  exact ⟨vertices, _, hgen, hlen⟩

/-- Within bounds the body of the triangle loop is the intersection test on the
three vertices of triangle `j` followed by the classification. -/
theorem testTriangle_of_lt (vertices : List (Vec3 K)) (r : Ray K) (j : Nat) (res : Result)
    (h : j * 3 + 2 < vertices.length) :
    testTriangle vertices r j res =
      some (tally (ray_triangle_intersect r
        (vertices.get ⟨j * 3 + 0, by omega⟩) (vertices.get ⟨j * 3 + 1, by omega⟩)
        (vertices.get ⟨j * 3 + 2, h⟩)) res) := by
  unfold testTriangle
  rw [List.getElem?_eq_getElem (by omega : j * 3 + 0 < vertices.length), Option.some_bind,
    List.getElem?_eq_getElem (by omega : j * 3 + 1 < vertices.length), Option.some_bind,
    List.getElem?_eq_getElem h, Option.some_bind]
  rfl

/-- One classification adds one to the sum of the two counters when they are
non-negative and below the largest `int`. -/
theorem tally_sum (t : Option K) (res : Result) (c : Int)
    (hh : 0 ≤ res.numHit) (hm : 0 ≤ res.numMiss) (hs : res.numHit + res.numMiss = c)
    (hc : c + 1 < 2 ^ 63) :
    0 ≤ (tally t res).numHit ∧ 0 ≤ (tally t res).numMiss ∧
      (tally t res).numHit + (tally t res).numMiss = c + 1 := by
  unfold tally
  split_ifs
  · simp only
    rw [wrapInt_of_range _ (by omega) (by omega)]
    omega
  · simp only
    rw [wrapInt_of_range _ (by omega) (by omega)]
    omega

/-- The triangle loop of the worker: `n` tests add `n` to the sum of the
counters. -/
theorem triangleLoop_sum (vertices : List (Vec3 K)) (r : Ray K) (n : Nat) (res : Result)
    (c : Int) (hlen : n * 3 ≤ vertices.length)
    (hh : 0 ≤ res.numHit) (hm : 0 ≤ res.numMiss) (hs : res.numHit + res.numMiss = c)
    (hc : c + n < 2 ^ 63) :
    ∃ res1, forLoop (testTriangle vertices r) n res = some res1 ∧
      0 ≤ res1.numHit ∧ 0 ≤ res1.numMiss ∧ res1.numHit + res1.numMiss = c + n := by
  refine forLoop_inv (testTriangle vertices r)
    (fun i s => 0 ≤ s.numHit ∧ 0 ≤ s.numMiss ∧ s.numHit + s.numMiss = c + i) n res
    ⟨hh, hm, by simpa using hs⟩ ?_
  intro i s hi ⟨h1, h2, h3⟩
  rw [testTriangle_of_lt vertices r i s (by omega)]
  refine ⟨_, rfl, ?_⟩
  have := tally_sum (ray_triangle_intersect r
        (vertices.get ⟨i * 3 + 0, by omega⟩) (vertices.get ⟨i * 3 + 1, by omega⟩)
        (vertices.get ⟨i * 3 + 2, by omega⟩)) s (c + i) h1 h2 h3 (by omega)
  push_cast
  simpa [add_assoc] using this

/-- A worker completes, and its two counters are non-negative and sum to the
number of tests, `numRays * (num_vertices / 3)`. -/
theorem worker_sum (m : MathFns K) (rs : RandSrc K G) (numRays : Nat)
    (vertices : List (Vec3 K)) (num_vertices : Nat) (rgen : G)
    (hlen : num_vertices / 3 * 3 ≤ vertices.length)
    (hc : (numRays : Int) * ((num_vertices / 3 : Nat) : Int) < 2 ^ 63) :
    ∃ res, worker m rs numRays vertices num_vertices rgen = some res ∧
      0 ≤ res.numHit ∧ 0 ≤ res.numMiss ∧
      res.numHit + res.numMiss = (numRays : Int) * ((num_vertices / 3 : Nat) : Int) := by
  obtain ⟨st, hst, h1, h2, h3⟩ := forLoop_inv
    (fun _ (st : G × Result) =>
      let s := sampleRay m rs st.1
      (forLoop (testTriangle vertices s.1) (num_vertices / 3) st.2).map fun res => (s.2, res))
    (fun i st => 0 ≤ st.2.numHit ∧ 0 ≤ st.2.numMiss ∧
      st.2.numHit + st.2.numMiss = (i : Int) * ((num_vertices / 3 : Nat) : Int))
    numRays (rgen, ⟨0, 0⟩) (by simp)
    (by
      intro i st hi ⟨h1, h2, h3⟩
      have hb : (i : Int) * ((num_vertices / 3 : Nat) : Int) + ((num_vertices / 3 : Nat) : Int)
          ≤ (numRays : Int) * ((num_vertices / 3 : Nat) : Int) := by
        have : ((i : Int) + 1) ≤ (numRays : Int) := by exact_mod_cast hi
        nlinarith [Int.natCast_nonneg (num_vertices / 3)]
      obtain ⟨res1, hr, g1, g2, g3⟩ := triangleLoop_sum vertices (sampleRay m rs st.1).1
        (num_vertices / 3) st.2 _ hlen h1 h2 h3 (by omega)
      refine ⟨((sampleRay m rs st.1).2, res1), ?_, g1, g2, ?_⟩
      · simp only [hr, Option.map_some']
      · simp only [g3]
        push_cast
        ring)
  refine ⟨st.2, ?_, h1, h2, h3⟩
  unfold worker
  rw [hst]
  rfl

end WorkerLemmas

section CoordinatorLemmas

/-- The receiving loop is a left fold over the first results of the channel. -/
theorem forLoop_receive (f : Result → Result → Result) (l : List Result) (n : Nat)
    (a : Result) (h : n ≤ l.length) :
    forLoop (fun i acc => l[i]?.map (f acc)) n a = some ((l.take n).foldl f a) := by
  induction n with
  | zero => rfl
  | succ k ih =>
    rw [forLoop_succ, ih (by omega), Option.some_bind,
      List.getElem?_eq_getElem (by omega : k < l.length), Option.map_some',
      List.take_succ, List.getElem?_eq_getElem (by omega : k < l.length)]
    simp only [Option.toList_some, List.foldl_append, List.foldl_cons, List.foldl_nil]

theorem coordinator_eq_foldl (nParallel : Int) (resultChan : List Result)
    (h : resultChan.length = nParallel.toNat) :
    coordinator nParallel resultChan = some (resultChan.foldl addResult ⟨0, 0⟩) := by
  unfold coordinator
  rw [forLoop_receive addResult resultChan _ _ (by omega), ← h, List.take_length]

/-- The fold of `addResult` computes the two sums in `int` arithmetic. -/
theorem foldl_addResult (l : List Result) (a : Result) :
    l.foldl addResult ⟨wrapInt a.numHit, wrapInt a.numMiss⟩ =
      ⟨wrapInt (a.numHit + (l.map Result.numHit).sum),
       wrapInt (a.numMiss + (l.map Result.numMiss).sum)⟩ := by
  induction l generalizing a with
  | nil => simp
  | cons r rs ih =>
    have := ih ⟨wrapInt a.numHit + r.numHit, wrapInt a.numMiss + r.numMiss⟩
    simp only [List.foldl_cons, List.map_cons, List.sum_cons]
    simp only [addResult]
    rw [this]
    simp only [wrapInt_add_left, add_assoc]

theorem foldl_addResult_zero (l : List Result) :
    l.foldl addResult ⟨0, 0⟩ =
      ⟨wrapInt (l.map Result.numHit).sum, wrapInt (l.map Result.numMiss).sum⟩ := by
  have := foldl_addResult l ⟨0, 0⟩
  simpa [wrapInt_zero] using this

/-- When every element of the list passes through `f` so does the list. -/
theorem mapM_some {α β : Type} (f : α → Option β) (Q : β → Prop) (l : List α)
    (h : ∀ a ∈ l, ∃ b, f a = some b ∧ Q b) :
    ∃ bs, l.mapM f = some bs ∧ bs.length = l.length ∧ ∀ b ∈ bs, Q b := by
  induction l with
  | nil => exact ⟨[], by rw [List.mapM_nil]; rfl, rfl, by simp⟩
  | cons a as ih =>
    obtain ⟨b, hb, hq⟩ := h a (List.mem_cons_self a as)
    obtain ⟨bs, hbs, hl, hQ⟩ := ih (fun x hx => h x (List.mem_cons_of_mem a hx))
    refine ⟨b :: bs, ?_, by simp [hl], ?_⟩
    · rw [List.mapM_cons, hb, hbs]
      rfl
    · intro x hx
      rcases List.mem_cons.mp hx with rfl | hx
      · exact hq
      · exact hQ x hx

/-- Sums of the counters of a list of results each of which has non-negative
counters summing to `c`. -/
theorem sums_of_results (c : Int) (l : List Result)
    (h : ∀ b ∈ l, 0 ≤ b.numHit ∧ 0 ≤ b.numMiss ∧ b.numHit + b.numMiss = c) :
    0 ≤ (l.map Result.numHit).sum ∧ 0 ≤ (l.map Result.numMiss).sum ∧
      (l.map Result.numHit).sum + (l.map Result.numMiss).sum = c * l.length := by
  induction l with
  | nil => simp
  | cons r rs ih =>
    obtain ⟨h1, h2, h3⟩ := h r (List.mem_cons_self r rs)
    obtain ⟨g1, g2, g3⟩ := ih (fun x hx => h x (List.mem_cons_of_mem r hx))
    simp only [List.map_cons, List.sum_cons, List.length_cons]
    refine ⟨by omega, by omega, ?_⟩
    push_cast
    linarith

end CoordinatorLemmas

section Claims

variable {K : Type} [LinearOrderedField K] {G : Type}

/-- The determinant of the triangle with reversed winding is the negation. -/
theorem rtiDet_swap (r : Ray K) (v0 v1 v2 : Vec3 K) :
    rtiDet r v0 v2 v1 = -rtiDet r v0 v1 v2 := by
  simp only [rtiDet, Vec3.Dot, Vec3.Cross, Vec3.Sub]
  ring

theorem frontRay_hit : ray_triangle_intersect frontRay triV0 triV1 triV2 = some 1 := by
  norm_num [ray_triangle_intersect, EPSILON, Vec3.Dot, Vec3.Cross, Vec3.Sub, frontRay, triV0,
    triV1, triV2]

/-- C1. Soundness of a reported hit: when `ray_triangle_intersect` returns a
finite value `t`, the barycentric coordinates `u`, `v` it computed satisfy
`u ≥ 0`, `v ≥ 0`, `u + v ≤ 1`, and the point `orig + t * dir` equals
`v0 + u * (v1 - v0) + v * (v2 - v0)` in each of the three components. -/
theorem C1_reported_hit_lies_in_triangle (r : Ray K) (v0 v1 v2 : Vec3 K) (t : K)
    (h : ray_triangle_intersect r v0 v1 v2 = some t) :
    0 ≤ rtiU r v0 v1 v2 ∧ 0 ≤ rtiV r v0 v1 v2 ∧ rtiU r v0 v1 v2 + rtiV r v0 v1 v2 ≤ 1 ∧
    r.Orig.x + t * r.Direction.x =
      v0.x + rtiU r v0 v1 v2 * (v1.Sub v0).x + rtiV r v0 v1 v2 * (v2.Sub v0).x ∧
    r.Orig.y + t * r.Direction.y =
      v0.y + rtiU r v0 v1 v2 * (v1.Sub v0).y + rtiV r v0 v1 v2 * (v2.Sub v0).y ∧
    r.Orig.z + t * r.Direction.z =
      v0.z + rtiU r v0 v1 v2 * (v1.Sub v0).z + rtiV r v0 v1 v2 * (v2.Sub v0).z := by
  obtain ⟨hd, hu, -, hv, huv, ht⟩ := ray_triangle_intersect_some r v0 v1 v2 t h
  have hne : rtiDet r v0 v1 v2 ≠ 0 := ne_of_gt (lt_of_lt_of_le EPSILON_pos hd)
  refine ⟨hu, hv, huv, ?_, ?_, ?_⟩
  all_goals
    subst ht
    simp only [rtiU, rtiV, rtiT]
    field_simp
    simp only [rtiDet, Vec3.Dot, Vec3.Cross, Vec3.Sub]
    ring

/-- C1 at the example: `frontRay` returns `t = 1`, and the point `(0, 0, 0)` it
reaches is `v0 + u * (v1 - v0) + v * (v2 - v0)`. -/
theorem C1_reported_hit_lies_in_triangle_witness :
    ray_triangle_intersect frontRay triV0 triV1 triV2 = some 1 ∧
    0 ≤ rtiU frontRay triV0 triV1 triV2 ∧ 0 ≤ rtiV frontRay triV0 triV1 triV2 ∧
    rtiU frontRay triV0 triV1 triV2 + rtiV frontRay triV0 triV1 triV2 ≤ 1 ∧
    frontRay.Orig.x + 1 * frontRay.Direction.x =
      triV0.x + rtiU frontRay triV0 triV1 triV2 * (triV1.Sub triV0).x +
        rtiV frontRay triV0 triV1 triV2 * (triV2.Sub triV0).x ∧
    frontRay.Orig.y + 1 * frontRay.Direction.y =
      triV0.y + rtiU frontRay triV0 triV1 triV2 * (triV1.Sub triV0).y +
        rtiV frontRay triV0 triV1 triV2 * (triV2.Sub triV0).y ∧
    frontRay.Orig.z + 1 * frontRay.Direction.z =
      triV0.z + rtiU frontRay triV0 triV1 triV2 * (triV1.Sub triV0).z +
        rtiV frontRay triV0 triV1 triV2 * (triV2.Sub triV0).z :=
  ⟨frontRay_hit,
    C1_reported_hit_lies_in_triangle frontRay triV0 triV1 triV2 1 frontRay_hit⟩

theorem centroidRay_hit : ray_triangle_intersect centroidRay triV0 triV1 triV2 = some 2 := by
  norm_num [ray_triangle_intersect, EPSILON, Vec3.Dot, Vec3.Cross, Vec3.Sub, centroidRay, triV0,
    triV1, triV2]

/-- C4. Front-facing centroid hit: for a triangle whose normal
`n = (v1 - v0) x (v2 - v0)` has `|n|^2 ≥ 1e-6` and every `s ≥ 0`, the ray from
`centroid + s * n` in direction `-n` has `det = |n|^2`, `u = v = 1/3`, the
function returns the finite value `t = s ≥ 0`, and the worker's `t >= 0` test
counts it as a hit (it adds one to `numHit` and leaves `numMiss`). -/
theorem C4_centroid_ray_hits (v0 v1 v2 n : Vec3 K) (s : K) (r : Ray K) (res : Result)
    (hn : n = (v1.Sub v0).Cross (v2.Sub v0))
    (hlen : 1 / 1000000 ≤ n.Dot n) (hs : 0 ≤ s)
    (hO : r.Orig = ⟨(v0.x + v1.x + v2.x) / 3 + s * n.x, (v0.y + v1.y + v2.y) / 3 + s * n.y,
      (v0.z + v1.z + v2.z) / 3 + s * n.z⟩)
    (hD : r.Direction = ⟨-n.x, -n.y, -n.z⟩) :
    rtiDet r v0 v1 v2 = n.Dot n ∧ rtiU r v0 v1 v2 = 1 / 3 ∧ rtiV r v0 v1 v2 = 1 / 3 ∧
    ray_triangle_intersect r v0 v1 v2 = some s ∧
    geZero (ray_triangle_intersect r v0 v1 v2) = true ∧
    tally (ray_triangle_intersect r v0 v1 v2) res =
      ⟨wrapInt (res.numHit + 1), res.numMiss⟩ := by
  have hdet : rtiDet r v0 v1 v2 = n.Dot n := by
    simp only [rtiDet, hD, hn, Vec3.Dot, Vec3.Cross, Vec3.Sub]
    ring
  have hpos : (0 : K) < n.Dot n := lt_of_lt_of_le (by norm_num) hlen
  have hne : n.Dot n ≠ 0 := ne_of_gt hpos
  have hu : rtiU r v0 v1 v2 = 1 / 3 := by
    unfold rtiU
    rw [hdet]
    field_simp
    simp only [hO, hD, hn, Vec3.Dot, Vec3.Cross, Vec3.Sub]
    ring
  have hv : rtiV r v0 v1 v2 = 1 / 3 := by
    unfold rtiV
    rw [hdet]
    field_simp
    simp only [hO, hD, hn, Vec3.Dot, Vec3.Cross, Vec3.Sub]
    ring
  have ht : rtiT r v0 v1 v2 = s := by
    unfold rtiT
    rw [hdet]
    field_simp
    simp only [hO, hD, hn, Vec3.Dot, Vec3.Cross, Vec3.Sub]
    ring
  have hres : ray_triangle_intersect r v0 v1 v2 = some s := by
    rw [ray_triangle_intersect_pass r v0 v1 v2 (by rw [hdet]; simpa only [EPSILON] using hlen)
      (by rw [hu]; norm_num) (by rw [hv]; norm_num) (by rw [hu, hv]; norm_num), ht]
  have hge : geZero (ray_triangle_intersect r v0 v1 v2) = true := by
    rw [hres]
    simpa [geZero] using hs
  refine ⟨hdet, hu, hv, hres, hge, ?_⟩
  unfold tally
  rw [if_pos hge]

/-- C4 at the example triangle, whose normal is `(1, 0, 0)`, with `s = 2`. -/
theorem C4_centroid_ray_hits_witness :
    (1 : ℚ) / 1000000 ≤ (⟨1, 0, 0⟩ : Vec3 ℚ).Dot ⟨1, 0, 0⟩ ∧ (0 : ℚ) ≤ 2 ∧
    ray_triangle_intersect centroidRay triV0 triV1 triV2 = some 2 ∧
    tally (ray_triangle_intersect centroidRay triV0 triV1 triV2) ⟨5, 7⟩ = ⟨6, 7⟩ :=
  ⟨by norm_num [Vec3.Dot], by norm_num,
   (C4_centroid_ray_hits triV0 triV1 triV2 ⟨1, 0, 0⟩ 2 centroidRay ⟨5, 7⟩
      (by norm_num [Vec3.Cross, Vec3.Sub, triV0, triV1, triV2])
      (by norm_num [Vec3.Dot]) (by norm_num)
      (by norm_num [centroidRay, triV0, triV1, triV2])
      (by norm_num [centroidRay])).2.2.2.1,
   by
    rw [centroidRay_hit]
    norm_num [tally, geZero, wrapInt]⟩

/-- C5 as amended. Back-face rejection by winding reversal, over exact
arithmetic: when the function returns a finite value for `(v0, v1, v2)`, the
determinant for `(v0, v2, v1)` is the negation of a value `≥ 1e-6`, and the
function returns the no-hit sentinel for the reversed winding; so at most one
of the two windings is reported as intersected. -/
theorem C5_reversed_winding_is_no_hit (r : Ray K) (v0 v1 v2 : Vec3 K) (t : K)
    (h : ray_triangle_intersect r v0 v1 v2 = some t) :
    1 / 1000000 ≤ rtiDet r v0 v1 v2 ∧ rtiDet r v0 v2 v1 = -rtiDet r v0 v1 v2 ∧
    ray_triangle_intersect r v0 v2 v1 = none ∧
    ¬ ((ray_triangle_intersect r v0 v1 v2).isSome ∧
        (ray_triangle_intersect r v0 v2 v1).isSome) := by
  obtain ⟨hd, -⟩ := ray_triangle_intersect_some r v0 v1 v2 t h
  have hpos : (0 : K) < EPSILON := EPSILON_pos
  have hnone : ray_triangle_intersect r v0 v2 v1 = none := by
    rw [ray_triangle_intersect_eq, if_pos (by rw [rtiDet_swap]; linarith)]
  refine ⟨by simpa only [EPSILON] using hd, rtiDet_swap r v0 v1 v2, hnone, ?_⟩
  rw [hnone]
  simp

/-- C5 as amended, at the example: `frontRay` hits `(triV0, triV1, triV2)` and
is rejected by `(triV0, triV2, triV1)`. -/
theorem C5_reversed_winding_is_no_hit_witness :
    ray_triangle_intersect frontRay triV0 triV1 triV2 = some 1 ∧
    ray_triangle_intersect frontRay triV0 triV2 triV1 = none :=
  ⟨frontRay_hit,
   (C5_reversed_winding_is_no_hit frontRay triV0 triV1 triV2 1 frontRay_hit).2.2.1⟩

theorem wrapInt_succ_ne (n : Int) : wrapInt (n + 1) ≠ n := by
  unfold wrapInt
  omega

theorem behindRay_negative :
    ray_triangle_intersect behindRay triV0 triV1 triV2 = some (-1) := by
  norm_num [ray_triangle_intersect, EPSILON, Vec3.Dot, Vec3.Cross, Vec3.Sub, behindRay, triV0,
    triV1, triV2]

/-- C6. Hit classification in the worker: one pass of the triangle loop on
triangle `j = (v0, v1, v2)` completes with a new pair of counters; `numHit` is
incremented (and `numMiss` kept) exactly when `ray_triangle_intersect` returned
a value `t` with `t ≥ 0`, otherwise `numMiss` is incremented (and `numHit`
kept); the sentinel and every finite negative `t` are misses; an increment
changes the counter, so exactly one of the two counters changes per test. The
increment is `+ 1` in `int` arithmetic, which is `+ 1` for a counter in
`[-2^63, 2^63 - 1)`. -/
theorem C6_worker_classifies_by_sign (vertices : List (Vec3 K)) (r : Ray K) (j : Nat)
    (res : Result) (v0 v1 v2 : Vec3 K)
    (h0 : vertices[j * 3 + 0]? = some v0) (h1 : vertices[j * 3 + 1]? = some v1)
    (h2 : vertices[j * 3 + 2]? = some v2) :
    ∃ res1, testTriangle vertices r j res = some res1 ∧
      ((∃ t, ray_triangle_intersect r v0 v1 v2 = some t ∧ 0 ≤ t) →
        res1 = ⟨wrapInt (res.numHit + 1), res.numMiss⟩) ∧
      ((¬ ∃ t, ray_triangle_intersect r v0 v1 v2 = some t ∧ 0 ≤ t) →
        res1 = ⟨res.numHit, wrapInt (res.numMiss + 1)⟩) ∧
      (ray_triangle_intersect r v0 v1 v2 = none →
        res1 = ⟨res.numHit, wrapInt (res.numMiss + 1)⟩) ∧
      (∀ t, ray_triangle_intersect r v0 v1 v2 = some t → t < 0 →
        res1 = ⟨res.numHit, wrapInt (res.numMiss + 1)⟩) ∧
      wrapInt (res.numHit + 1) ≠ res.numHit ∧ wrapInt (res.numMiss + 1) ≠ res.numMiss ∧
      (-2 ^ 63 ≤ res.numHit → res.numHit + 1 < 2 ^ 63 →
        wrapInt (res.numHit + 1) = res.numHit + 1) ∧
      (-2 ^ 63 ≤ res.numMiss → res.numMiss + 1 < 2 ^ 63 →
        wrapInt (res.numMiss + 1) = res.numMiss + 1) := by
  refine ⟨tally (ray_triangle_intersect r v0 v1 v2) res, ?_, ?_, ?_, ?_, ?_,
    wrapInt_succ_ne _, wrapInt_succ_ne _, fun a b => wrapInt_of_range _ (by omega) b,
    fun a b => wrapInt_of_range _ (by omega) b⟩
  · unfold testTriangle
    rw [h0, Option.some_bind, h1, Option.some_bind, h2, Option.some_bind]
  · rintro ⟨t, ht, hpos⟩
    have hge : geZero (ray_triangle_intersect r v0 v1 v2) = true := by
      rw [ht]
      simpa [geZero] using hpos
    unfold tally
    rw [if_pos hge]
  · intro hno
    have hge : ¬ geZero (ray_triangle_intersect r v0 v1 v2) = true := by
      intro hge
      apply hno
      cases hres : ray_triangle_intersect r v0 v1 v2 with
      | none => rw [hres] at hge; simp [geZero] at hge
      | some t =>
        rw [hres] at hge
        exact ⟨t, rfl, by simpa [geZero] using hge⟩
    unfold tally
    rw [if_neg hge]
  · intro hnone
    rw [hnone]
    simp [tally, geZero]
  · intro t ht hneg
    rw [ht]
    have : ¬ (0 ≤ t) := not_le.mpr hneg
    simp [tally, geZero, this]

/-- C6 at the example scene `[triV0, triV1, triV2]`: `behindRay` returns the
finite value `-1` and the test is counted as a miss. -/
theorem C6_worker_classifies_by_sign_witness :
    testTriangle [triV0, triV1, triV2] behindRay 0 ⟨3, 4⟩ = some ⟨3, 5⟩ := by
  obtain ⟨res1, hres, -, -, -, hneg, -⟩ :=
    C6_worker_classifies_by_sign [triV0, triV1, triV2] behindRay 0 ⟨3, 4⟩ triV0 triV1 triV2
      rfl rfl rfl
  rw [hres, hneg (-1) behindRay_negative (by norm_num)]
  norm_num [wrapInt]

/-- C7 fails as stated: `behindRay` passes the determinant test and both `u`/`v`
tests (`det = 1`, `u = 1/4`, `v = 1/2`), the function returns the finite value
`t = -1`, and the worker counts the test as a miss, because `t < 0`. -/
theorem C7_counterexample :
    (1 : ℚ) / 1000000 ≤ rtiDet behindRay triV0 triV1 triV2 ∧
    rtiU behindRay triV0 triV1 triV2 = 1 / 4 ∧ rtiV behindRay triV0 triV1 triV2 = 1 / 2 ∧
    ray_triangle_intersect behindRay triV0 triV1 triV2 = some (-1) ∧
    testTriangle [triV0, triV1, triV2] behindRay 0 ⟨0, 0⟩ = some ⟨0, 1⟩ := by
  refine ⟨?_, ?_, ?_, behindRay_negative, ?_⟩
  · norm_num [rtiDet, Vec3.Dot, Vec3.Cross, Vec3.Sub, behindRay, triV0, triV1, triV2]
  · norm_num [rtiU, rtiDet, Vec3.Dot, Vec3.Cross, Vec3.Sub, behindRay, triV0, triV1, triV2]
  · norm_num [rtiV, rtiDet, Vec3.Dot, Vec3.Cross, Vec3.Sub, behindRay, triV0, triV1, triV2]
  · have : testTriangle [triV0, triV1, triV2] behindRay 0 ⟨0, 0⟩ =
        some (tally (ray_triangle_intersect behindRay triV0 triV1 triV2) ⟨0, 0⟩) := rfl
    rw [this, behindRay_negative]
    norm_num [tally, geZero, wrapInt]

/-- C7 as amended: when the determinant test and both `u`/`v` tests pass, the
function returns the finite value `t = (edge2 . qvec) / det`, and the worker
counts the test as a hit if and only if `t ≥ 0`; a finite negative `t` that
passed the `u`/`v` tests is counted as a miss by the `t >= 0` test. -/
theorem C7_passing_tests_hit_iff_nonneg (r : Ray K) (v0 v1 v2 : Vec3 K) (res : Result)
    (hd : 1 / 1000000 ≤ rtiDet r v0 v1 v2)
    (hu : 0 ≤ rtiU r v0 v1 v2) (hv : 0 ≤ rtiV r v0 v1 v2)
    (huv : rtiU r v0 v1 v2 + rtiV r v0 v1 v2 ≤ 1) :
    ray_triangle_intersect r v0 v1 v2 = some (rtiT r v0 v1 v2) ∧
    (0 ≤ rtiT r v0 v1 v2 →
      tally (ray_triangle_intersect r v0 v1 v2) res =
        ⟨wrapInt (res.numHit + 1), res.numMiss⟩) ∧
    (rtiT r v0 v1 v2 < 0 →
      tally (ray_triangle_intersect r v0 v1 v2) res =
        ⟨res.numHit, wrapInt (res.numMiss + 1)⟩) := by
  have hres := ray_triangle_intersect_pass r v0 v1 v2 (by simpa only [EPSILON] using hd) hu hv huv
  refine ⟨hres, ?_, ?_⟩
  · intro ht
    rw [hres]
    simp [tally, geZero, ht]
  · intro ht
    rw [hres]
    have : ¬ (0 ≤ rtiT r v0 v1 v2) := not_le.mpr ht
    simp [tally, geZero, this]

/-- C7 as amended, at `behindRay`: all tests pass, `t = -1`, counted as a miss. -/
theorem C7_passing_tests_hit_iff_nonneg_witness :
    rtiT behindRay triV0 triV1 triV2 = -1 ∧
    tally (ray_triangle_intersect behindRay triV0 triV1 triV2) ⟨0, 0⟩ =
      ⟨0, wrapInt (0 + 1)⟩ := by
  have ht : rtiT behindRay triV0 triV1 triV2 = -1 := by
    norm_num [rtiT, rtiDet, Vec3.Dot, Vec3.Cross, Vec3.Sub, behindRay, triV0, triV1, triV2]
  refine ⟨ht, ?_⟩
  exact (C7_passing_tests_hit_iff_nonneg behindRay triV0 triV1 triV2 ⟨0, 0⟩
    (by norm_num [rtiDet, Vec3.Dot, Vec3.Cross, Vec3.Sub, behindRay, triV0, triV1, triV2])
    (by norm_num [rtiU, rtiDet, Vec3.Dot, Vec3.Cross, Vec3.Sub, behindRay, triV0, triV1, triV2])
    (by norm_num [rtiV, rtiDet, Vec3.Dot, Vec3.Cross, Vec3.Sub, behindRay, triV0, triV1, triV2])
    (by norm_num [rtiU, rtiV, rtiDet, Vec3.Dot, Vec3.Cross, Vec3.Sub, behindRay, triV0, triV1,
      triV2])).2.2 (by rw [ht]; norm_num)


theorem tableScene :
    generate_random_triangles tableRand 1 0 = some ([triV0, triV1, triV2], 9) := by
  decide!

/-- C8. Total test count: for every `nParallel ≥ 0`, every state of the global
source, all seeds and every arrival order, the scene generator completes; each
worker on that scene completes with `numHit + numMiss = NUM_RAYS *
NUM_TRIANGLES`; `main` completes, its `num_tests` is `NUM_RAYS * NUM_TRIANGLES
* nParallel` (in `int` arithmetic) and the `int` sum `numHit + numMiss` of the
coordinator's totals equals that `num_tests`; when the product is below `2^63`
all three are the exact product. -/
theorem C8_total_test_count (m : MathFns K) (rs : RandSrc K G) (g0 : G) (nParallel : Int)
    (seeds : Nat → G) (arrival : List Nat)
    (h0 : 0 ≤ nParallel) (hp : arrival.Perm (List.range nParallel.toNat)) :
    ∃ vertices g1, generate_random_triangles rs NUM_TRIANGLES g0 = some (vertices, g1) ∧
      (∀ rgen, ∃ res, worker m rs NUM_RAYS vertices (NUM_TRIANGLES * 3) rgen = some res ∧
        res.numHit + res.numMiss = (NUM_RAYS : Int) * (NUM_TRIANGLES : Int)) ∧
      ∃ out, main m rs g0 nParallel seeds arrival = some out ∧
        out.num_tests = wrapInt ((NUM_RAYS : Int) * (NUM_TRIANGLES : Int) * nParallel) ∧
        wrapInt (out.numHit + out.numMiss) = out.num_tests ∧
        ((NUM_RAYS : Int) * (NUM_TRIANGLES : Int) * nParallel < 2 ^ 63 →
          out.numHit + out.numMiss = (NUM_RAYS : Int) * (NUM_TRIANGLES : Int) * nParallel ∧
          out.num_tests = (NUM_RAYS : Int) * (NUM_TRIANGLES : Int) * nParallel) := by
  obtain ⟨vertices, g1, hgen, hlen⟩ := generate_random_triangles_length rs NUM_TRIANGLES g0
    (by norm_num [NUM_TRIANGLES])
  have hdiv : NUM_TRIANGLES * 3 / 3 = NUM_TRIANGLES := Nat.mul_div_cancel _ (by norm_num)
  have hconst : (NUM_RAYS : Int) * (NUM_TRIANGLES : Int) = 400000000 := by
    norm_num [NUM_RAYS, NUM_TRIANGLES]
  have hworker : ∀ rgen, ∃ res,
      worker m rs NUM_RAYS vertices (NUM_TRIANGLES * 3) rgen = some res ∧
      (0 ≤ res.numHit ∧ 0 ≤ res.numMiss ∧
        res.numHit + res.numMiss = (NUM_RAYS : Int) * (NUM_TRIANGLES : Int)) := by
    intro rgen
    have := worker_sum m rs NUM_RAYS vertices (NUM_TRIANGLES * 3) rgen
      (by rw [hdiv, hlen]) (by rw [hdiv, hconst]; norm_num)
    rw [hdiv] at this
    exact this
  refine ⟨vertices, g1, hgen, fun rgen => ?_, ?_⟩
  · obtain ⟨res, hres, -, -, hsum⟩ := hworker rgen
    exact ⟨res, hres, hsum⟩
  obtain ⟨chan, hchan, hclen, hQ⟩ := mapM_some
    (fun i => worker m rs NUM_RAYS vertices (NUM_TRIANGLES * 3) (seeds i))
    (fun b => 0 ≤ b.numHit ∧ 0 ≤ b.numMiss ∧
      b.numHit + b.numMiss = (NUM_RAYS : Int) * (NUM_TRIANGLES : Int))
    arrival (fun i _ => hworker (seeds i))
  have hn : chan.length = nParallel.toNat := by
    rw [hclen, hp.length_eq, List.length_range]
  obtain ⟨s1, s2, s3⟩ := sums_of_results _ chan hQ
  have hcast : ((chan.length : Nat) : Int) = nParallel := by
    rw [hn]
    exact Int.toNat_of_nonneg h0
  rw [hcast] at s3
  refine ⟨⟨wrapInt (chan.map Result.numHit).sum, wrapInt (chan.map Result.numMiss).sum,
    wrapInt (wrapInt ((NUM_RAYS : Int) * (NUM_TRIANGLES : Int)) * nParallel)⟩, ?_, ?_, ?_, ?_⟩
  · unfold main mainWith
    rw [hgen, Option.some_bind]
    simp only
    rw [hchan, Option.some_bind, coordinator_eq_foldl nParallel chan hn,
      foldl_addResult_zero, Option.map_some']
  · simp only
    rw [wrapInt_of_range ((NUM_RAYS : Int) * (NUM_TRIANGLES : Int))
      (by rw [hconst]; norm_num) (by rw [hconst]; norm_num)]
  · simp only
    rw [wrapInt_add_left, wrapInt_add_right, s3,
      wrapInt_of_range ((NUM_RAYS : Int) * (NUM_TRIANGLES : Int))
        (by rw [hconst]; norm_num) (by rw [hconst]; norm_num)]
  · intro hlt
    simp only
    have hnn : 0 ≤ (NUM_RAYS : Int) * (NUM_TRIANGLES : Int) * nParallel := by
      rw [hconst]
      omega
    rw [wrapInt_of_range (chan.map Result.numHit).sum (by omega) (by omega),
      wrapInt_of_range (chan.map Result.numMiss).sum (by omega) (by omega),
      wrapInt_of_range ((NUM_RAYS : Int) * (NUM_TRIANGLES : Int))
        (by rw [hconst]; norm_num) (by rw [hconst]; norm_num),
      wrapInt_of_range _ (by omega) hlt]
    exact ⟨s3, rfl⟩

/-- C8 at `nParallel = 2` with the second worker delivering first. -/
theorem C8_total_test_count_witness :
    (0 : Int) ≤ 2 ∧ [1, 0].Perm (List.range (2 : Int).toNat) ∧
    ∃ out, main tableMath tableRand 0 2 (fun _ => 0) [1, 0] = some out ∧
      out.numHit + out.numMiss = 800000000 ∧ out.num_tests = 800000000 := by
  have hperm : [1, 0].Perm (List.range (2 : Int).toNat) := by decide
  refine ⟨by norm_num, hperm, ?_⟩
  obtain ⟨-, -, -, -, out, hout, -, -, hex⟩ :=
    C8_total_test_count tableMath tableRand 0 2 (fun _ => 0) [1, 0] (by norm_num) hperm
  have h := hex (by norm_num [NUM_RAYS, NUM_TRIANGLES])
  refine ⟨out, hout, ?_, ?_⟩
  · rw [h.1]
    norm_num [NUM_RAYS, NUM_TRIANGLES]
  · rw [h.2]
    norm_num [NUM_RAYS, NUM_TRIANGLES]


/-- C9. Aggregation is order-independent: for every list of results and every
permutation of it, the receiving loop of the coordinator (from `numHit = 0`,
`numMiss = 0`, one addition per received result) completes on both with the
same totals, and these are the componentwise sums over the list (in `int`
arithmetic, so the exact sums whenever these lie in `[-2^63, 2^63)`). -/
theorem C9_aggregation_order_independent (results arrived : List Result)
    (hp : arrived.Perm results) :
    coordinator (arrived.length : Int) arrived = coordinator (results.length : Int) results ∧
    coordinator (arrived.length : Int) arrived =
      some ⟨wrapInt (results.map Result.numHit).sum,
        wrapInt (results.map Result.numMiss).sum⟩ ∧
    (-2 ^ 63 ≤ (results.map Result.numHit).sum → (results.map Result.numHit).sum < 2 ^ 63 →
      -2 ^ 63 ≤ (results.map Result.numMiss).sum →
      (results.map Result.numMiss).sum < 2 ^ 63 →
      coordinator (arrived.length : Int) arrived =
        some ⟨(results.map Result.numHit).sum, (results.map Result.numMiss).sum⟩) := by
  have hA : coordinator (arrived.length : Int) arrived =
      some ⟨wrapInt (results.map Result.numHit).sum,
        wrapInt (results.map Result.numMiss).sum⟩ := by
    rw [coordinator_eq_foldl _ arrived (by simp), foldl_addResult_zero,
      (hp.map Result.numHit).sum_eq, (hp.map Result.numMiss).sum_eq]
  have hR : coordinator (results.length : Int) results =
      some ⟨wrapInt (results.map Result.numHit).sum,
        wrapInt (results.map Result.numMiss).sum⟩ := by
    rw [coordinator_eq_foldl _ results (by simp), foldl_addResult_zero]
  refine ⟨by rw [hA, hR], hA, ?_⟩
  intro a1 a2 b1 b2
  rw [hA, wrapInt_of_range _ a1 a2, wrapInt_of_range _ b1 b2]

/-- C9 on three results arriving in the order third, first, second. -/
theorem C9_aggregation_order_independent_witness :
    coordinator 3 [⟨5, 6⟩, ⟨1, 2⟩, ⟨3, 4⟩] = coordinator 3 [⟨1, 2⟩, ⟨3, 4⟩, ⟨5, 6⟩] ∧
    coordinator 3 [⟨5, 6⟩, ⟨1, 2⟩, ⟨3, 4⟩] = some ⟨9, 12⟩ := by
  have hperm : ([⟨5, 6⟩, ⟨1, 2⟩, ⟨3, 4⟩] : List Result).Perm [⟨1, 2⟩, ⟨3, 4⟩, ⟨5, 6⟩] := by
    decide
  obtain ⟨h1, -, h3⟩ := C9_aggregation_order_independent
    [⟨1, 2⟩, ⟨3, 4⟩, ⟨5, 6⟩] [⟨5, 6⟩, ⟨1, 2⟩, ⟨3, 4⟩] hperm
  refine ⟨h1, ?_⟩
  have := h3 (by norm_num) (by norm_num) (by norm_num) (by norm_num)
  simpa using this

/-- C11. Cross-product orthogonality: for all vectors `a` and `b`,
`Cross(a, b).Dot(a) = 0` and `Cross(a, b).Dot(b) = 0`. -/
theorem C11_cross_is_orthogonal (a b : Vec3 K) :
    (a.Cross b).Dot a = 0 ∧ (a.Cross b).Dot b = 0 := by
  constructor
  · simp only [Vec3.Dot, Vec3.Cross]
    ring
  · simp only [Vec3.Dot, Vec3.Cross]
    ring

/-- C16. Completeness for front-facing triangles: when `det ≥ 1e-6` and the
point `orig + t * dir` equals `v0 + u * (v1 - v0) + v * (v2 - v0)` with
`u ≥ 0`, `v ≥ 0`, `u + v ≤ 1`, the values the function computes are that `u`
and that `v`, and it returns exactly that `t`, not the sentinel. -/
theorem C16_front_facing_hit_is_reported (r : Ray K) (v0 v1 v2 : Vec3 K) (t u v : K)
    (hd : 1 / 1000000 ≤ rtiDet r v0 v1 v2)
    (hu : 0 ≤ u) (hv : 0 ≤ v) (huv : u + v ≤ 1)
    (hx : r.Orig.x + t * r.Direction.x = v0.x + u * (v1.Sub v0).x + v * (v2.Sub v0).x)
    (hy : r.Orig.y + t * r.Direction.y = v0.y + u * (v1.Sub v0).y + v * (v2.Sub v0).y)
    (hz : r.Orig.z + t * r.Direction.z = v0.z + u * (v1.Sub v0).z + v * (v2.Sub v0).z) :
    rtiU r v0 v1 v2 = u ∧ rtiV r v0 v1 v2 = v ∧
    ray_triangle_intersect r v0 v1 v2 = some t := by
  have hpos : (0 : K) < rtiDet r v0 v1 v2 := lt_of_lt_of_le (by norm_num) hd
  have hne : rtiDet r v0 v1 v2 ≠ 0 := ne_of_gt hpos
  have ox : r.Orig.x = v0.x + u * (v1.Sub v0).x + v * (v2.Sub v0).x - t * r.Direction.x := by
    linarith
  have oy : r.Orig.y = v0.y + u * (v1.Sub v0).y + v * (v2.Sub v0).y - t * r.Direction.y := by
    linarith
  have oz : r.Orig.z = v0.z + u * (v1.Sub v0).z + v * (v2.Sub v0).z - t * r.Direction.z := by
    linarith
  have nu : (r.Orig.Sub v0).Dot (r.Direction.Cross (v2.Sub v0)) = u * rtiDet r v0 v1 v2 := by
    simp only [rtiDet, Vec3.Dot, Vec3.Cross, Vec3.Sub] at ox oy oz ⊢
    rw [ox, oy, oz]
    ring
  have nv : r.Direction.Dot ((r.Orig.Sub v0).Cross (v1.Sub v0)) = v * rtiDet r v0 v1 v2 := by
    simp only [rtiDet, Vec3.Dot, Vec3.Cross, Vec3.Sub] at ox oy oz ⊢
    rw [ox, oy, oz]
    ring
  have nt : (v2.Sub v0).Dot ((r.Orig.Sub v0).Cross (v1.Sub v0)) = t * rtiDet r v0 v1 v2 := by
    simp only [rtiDet, Vec3.Dot, Vec3.Cross, Vec3.Sub] at ox oy oz ⊢
    rw [ox, oy, oz]
    ring
  have eu : rtiU r v0 v1 v2 = u := by
    unfold rtiU
    rw [nu]
    field_simp
  have ev : rtiV r v0 v1 v2 = v := by
    unfold rtiV
    rw [nv]
    field_simp
  have et : rtiT r v0 v1 v2 = t := by
    unfold rtiT
    rw [nt]
    field_simp
  refine ⟨eu, ev, ?_⟩
  rw [ray_triangle_intersect_pass r v0 v1 v2 (by simpa only [EPSILON] using hd)
    (by rw [eu]; exact hu) (by rw [ev]; exact hv) (by rw [eu, ev]; exact huv), et]

/-- C16 at the example: the point `(0, 0, 0)` is `triV0 + 1/4 * e1 + 1/2 * e2`
and `frontRay` reaches it at `t = 1`. -/
theorem C16_front_facing_hit_is_reported_witness :
    rtiDet frontRay triV0 triV1 triV2 = 1 ∧
    ray_triangle_intersect frontRay triV0 triV1 triV2 = some 1 :=
  ⟨by norm_num [rtiDet, Vec3.Dot, Vec3.Cross, Vec3.Sub, frontRay, triV0, triV1, triV2],
   (C16_front_facing_hit_is_reported frontRay triV0 triV1 triV2 1 (1 / 4) (1 / 2)
    (by norm_num [rtiDet, Vec3.Dot, Vec3.Cross, Vec3.Sub, frontRay, triV0, triV1, triV2])
    (by norm_num) (by norm_num) (by norm_num)
    (by norm_num [Vec3.Sub, frontRay, triV0, triV1, triV2])
    (by norm_num [Vec3.Sub, frontRay, triV0, triV1, triV2])
    (by norm_num [Vec3.Sub, frontRay, triV0, triV1, triV2])).2.2⟩

/-- C18. Translation invariance: moving the origin of the ray and the three
vertices by the same offset `d` leaves the four difference/direction vectors
the function uses unchanged, and the function returns the same result (the
same sentinel or the same `t`). -/
theorem C18_translation_invariant (r : Ray K) (v0 v1 v2 d : Vec3 K) :
    ray_triangle_intersect
        ⟨⟨r.Orig.x + d.x, r.Orig.y + d.y, r.Orig.z + d.z⟩, r.Direction⟩
        ⟨v0.x + d.x, v0.y + d.y, v0.z + d.z⟩ ⟨v1.x + d.x, v1.y + d.y, v1.z + d.z⟩
        ⟨v2.x + d.x, v2.y + d.y, v2.z + d.z⟩ =
      ray_triangle_intersect r v0 v1 v2 := by
  have hsub : ∀ a b : Vec3 K,
      (⟨a.x + d.x, a.y + d.y, a.z + d.z⟩ : Vec3 K).Sub ⟨b.x + d.x, b.y + d.y, b.z + d.z⟩ =
        a.Sub b := by
    intro a b
    simp only [Vec3.Sub, add_sub_add_right_eq_sub]
  unfold ray_triangle_intersect
  simp only [hsub]

end Claims

section RealClaims

variable {G : Type}

/-- C12. Normalize yields a unit vector: with `math.Sqrt` the real square
root, for every vector `v` other than the zero vector, `Length(v)` is
`sqrt(v . v)` and is positive, `Normalize(v)` is `v` divided componentwise by
`Length(v)`, and `Normalize(v).Length() = 1`. -/
theorem C12_normalize_has_length_one (m : MathFns ℝ) (v : Vec3 ℝ)
    (hm : m.Sqrt = Real.sqrt) (hv : v ≠ ⟨0, 0, 0⟩) :
    v.Length m = Real.sqrt (v.Dot v) ∧ 0 < v.Length m ∧
    v.Normalize m = ⟨v.x / v.Length m, v.y / v.Length m, v.z / v.Length m⟩ ∧
    (v.Normalize m).Length m = 1 := by
  have hlen : v.Length m = Real.sqrt (v.Dot v) := by
    simp only [Vec3.Length, Vec3.Dot, hm]
  have hdot : 0 < v.Dot v := by
    have h0 : 0 ≤ v.Dot v := by
      simp only [Vec3.Dot]
      linarith [mul_self_nonneg v.x, mul_self_nonneg v.y, mul_self_nonneg v.z]
    rcases lt_or_eq_of_le h0 with h | h
    · exact h
    · exfalso
      apply hv
      simp only [Vec3.Dot] at h
      have hx : v.x = 0 := by nlinarith [mul_self_nonneg v.x, mul_self_nonneg v.y, mul_self_nonneg v.z]
      have hy : v.y = 0 := by nlinarith [mul_self_nonneg v.x, mul_self_nonneg v.y, mul_self_nonneg v.z]
      have hz : v.z = 0 := by nlinarith [mul_self_nonneg v.x, mul_self_nonneg v.y, mul_self_nonneg v.z]
      cases v
      simp only [Vec3.mk.injEq]
      exact ⟨hx, hy, hz⟩
  have hpos : 0 < v.Length m := by
    rw [hlen]
    exact Real.sqrt_pos.mpr hdot
  have hsq : v.Length m * v.Length m = v.x * v.x + v.y * v.y + v.z * v.z := by
    rw [hlen]
    exact Real.mul_self_sqrt (le_of_lt hdot)
  refine ⟨hlen, hpos, rfl, ?_⟩
  have hne : v.Length m ≠ 0 := ne_of_gt hpos
  have hone : v.x / v.Length m * (v.x / v.Length m) + v.y / v.Length m * (v.y / v.Length m) +
      v.z / v.Length m * (v.z / v.Length m) = 1 := by
    field_simp
    linarith
  show m.Sqrt (v.x / v.Length m * (v.x / v.Length m) + v.y / v.Length m * (v.y / v.Length m) +
      v.z / v.Length m * (v.z / v.Length m)) = 1
  rw [hone, hm, Real.sqrt_one]

/-- C12 at the vector `(3, 0, 4)`. -/
theorem C12_normalize_has_length_one_witness :
    (Vec3.Normalize ⟨Real.sqrt, Real.arccos, Real.cos, Real.sin, Real.pi⟩
      (⟨3, 0, 4⟩ : Vec3 ℝ)).Length ⟨Real.sqrt, Real.arccos, Real.cos, Real.sin, Real.pi⟩ = 1 :=
  (C12_normalize_has_length_one ⟨Real.sqrt, Real.arccos, Real.cos, Real.sin, Real.pi⟩
    ⟨3, 0, 4⟩ rfl (by simp [Vec3.mk.injEq])).2.2.2

/-- C13. The value of `random_sphere` is a unit vector: with the real `sqrt`,
`cos` and `sin`, for every pair of draws `r1`, `r2` (in particular for draws
in `[0, 1)`) the returned point is `(cos(lat)cos(lon), cos(lat)sin(lon),
sin(lat))` with `lat = acos(2*r1 - 1) - pi/2`, `lon = 2*pi*r2`, and its length
is exactly 1. -/
theorem C13_random_sphere_has_length_one (m : MathFns ℝ) (rs : RandSrc ℝ G) (rgen : G)
    (hm : m = ⟨Real.sqrt, Real.arccos, Real.cos, Real.sin, Real.pi⟩) :
    (random_sphere m rs rgen).1 =
      ⟨Real.cos (Real.arccos (2 * (rs.Float64 rgen).1 - 1) - Real.pi / 2) *
          Real.cos (2 * Real.pi * (rs.Float64 (rs.Float64 rgen).2).1),
        Real.cos (Real.arccos (2 * (rs.Float64 rgen).1 - 1) - Real.pi / 2) *
          Real.sin (2 * Real.pi * (rs.Float64 (rs.Float64 rgen).2).1),
        Real.sin (Real.arccos (2 * (rs.Float64 rgen).1 - 1) - Real.pi / 2)⟩ ∧
    (random_sphere m rs rgen).1.Length m = 1 := by
  subst hm
  refine ⟨rfl, ?_⟩
  simp only [random_sphere, Vec3.Length]
  have key : ∀ a b : ℝ, Real.cos a * Real.cos b * (Real.cos a * Real.cos b) +
      Real.cos a * Real.sin b * (Real.cos a * Real.sin b) + Real.sin a * Real.sin a = 1 := by
    intro a b
    have ha := Real.sin_sq_add_cos_sq a
    have hb := Real.sin_sq_add_cos_sq b
    nlinarith [ha, hb]
  rw [key, Real.sqrt_one]

/-- C13 with the real functions, on a generator that draws `1/4` and then
`3/4`. -/
theorem C13_random_sphere_has_length_one_witness :
    (random_sphere (⟨Real.sqrt, Real.arccos, Real.cos, Real.sin, Real.pi⟩ : MathFns ℝ)
      (⟨fun n => (0, n + 1), fun n => (if n = 0 then 1 / 4 else 3 / 4, n + 1)⟩ : RandSrc ℝ Nat)
      0).1.Length ⟨Real.sqrt, Real.arccos, Real.cos, Real.sin, Real.pi⟩ = 1 :=
  (C13_random_sphere_has_length_one ⟨Real.sqrt, Real.arccos, Real.cos, Real.sin, Real.pi⟩
    ⟨fun n => (0, n + 1), fun n => (if n = 0 then 1 / 4 else 3 / 4, n + 1)⟩ 0 rfl).2

/-- C17. Height of the sampled point: with the real `acos`, `sin` and `pi`,
for a first draw `r1` in `[0, 1]` the `z` component returned by
`random_sphere` is `sin(acos(2*r1 - 1) - pi/2) = 1 - 2*r1`, whatever the
second draw is. -/
theorem C17_sphere_height_is_affine (m : MathFns ℝ) (rs : RandSrc ℝ G) (rgen : G)
    (hm : m = ⟨Real.sqrt, Real.arccos, Real.cos, Real.sin, Real.pi⟩)
    (h0 : 0 ≤ (rs.Float64 rgen).1) (h1 : (rs.Float64 rgen).1 ≤ 1) :
    (random_sphere m rs rgen).1.z =
      Real.sin (Real.arccos (2 * (rs.Float64 rgen).1 - 1) - Real.pi / 2) ∧
    (random_sphere m rs rgen).1.z = 1 - 2 * (rs.Float64 rgen).1 := by
  subst hm
  refine ⟨rfl, ?_⟩
  simp only [random_sphere]
  rw [Real.sin_sub_pi_div_two, Real.cos_arccos (by linarith) (by linarith)]
  ring

/-- C17 with the real functions, on a generator that draws `1/4` and then
`3/4`: the height is `1 - 2 * (1/4) = 1/2`. -/
theorem C17_sphere_height_is_affine_witness :
    (random_sphere (⟨Real.sqrt, Real.arccos, Real.cos, Real.sin, Real.pi⟩ : MathFns ℝ)
      (⟨fun n => (0, n + 1), fun n => (if n = 0 then 1 / 4 else 3 / 4, n + 1)⟩ : RandSrc ℝ Nat)
      0).1.z = 1 / 2 := by
  have h := (C17_sphere_height_is_affine ⟨Real.sqrt, Real.arccos, Real.cos, Real.sin, Real.pi⟩
    (⟨fun n => (0, n + 1), fun n => (if n = 0 then 1 / 4 else 3 / 4, n + 1)⟩ : RandSrc ℝ Nat)
    0 rfl (by norm_num) (by norm_num)).2
  rw [h]
  norm_num

end RealClaims

section SceneClaims

variable {K : Type} [LinearOrderedField K] {G : Type}

/-- An index below the bound occurs exactly once in the list of the indices
`0, 1, ..., M - 1`. -/
theorem count_range_cast (M p : Nat) (hp : p < M) :
    ((List.range M).map Int.ofNat).count (p : Int) = 1 := by
  apply List.count_eq_one_of_mem
  · exact (List.nodup_range M).map (fun a b h => Int.ofNat.inj h)
  · exact List.mem_map.mpr ⟨p, List.mem_range.mpr hp, rfl⟩

/-- C14 fails for a count whose triple does not fit in an `int`: for
`numTriangles = 6148914691236517206` the length `numTriangles * 3` wraps to 2,
`make` returns a slice of 2 entries, and the assignment to index 2 in the first
pass of the loop is out of range, so the function does not return. -/
theorem C14_counterexample :
    (0 : Int) ≤ 6148914691236517206 ∧ wrapInt (6148914691236517206 * 3) = 2 ∧
    generate_random_triangles tableRand 6148914691236517206 0 = none := by
  refine ⟨by norm_num, by decide, ?_⟩
  have hmake : makeSlice (⟨0, 0, 0⟩ : Vec3 ℚ) (wrapInt (6148914691236517206 * 3)) =
      some [⟨0, 0, 0⟩, ⟨0, 0, 0⟩] := by decide!
  unfold generate_random_triangles generateWith
  rw [hmake, Option.some_bind]
  exact forLoop_none_of_first _ _ (by decide!) _ (by decide)

/-- C14 as amended. For every `numTriangles ≥ 0` with `3 * numTriangles <
2^63`, `generate_random_triangles(numTriangles)` returns a slice of exactly
`3 * numTriangles` vertices (a multiple of 3); entry `p` is the vertex made by
the `p`-th call of `random_vertex`; the run on a slice with a ghost log gives
the same slice, and the log shows each index `0 .. 3 * numTriangles - 1`
assigned exactly once and no other index assigned; and for every
`j < num_vertices / 3` (with `num_vertices = numTriangles * 3`) the worker's
indices `j*3+0`, `j*3+1`, `j*3+2` are within the bounds of the slice. -/
theorem C14_triangle_buffer_shape (rs : RandSrc K G) (numTriangles : Int) (g : G)
    (h0 : 0 ≤ numTriangles) (h3 : numTriangles * 3 < 2 ^ 63) :
    ∃ vertices g1 log,
      generate_random_triangles rs numTriangles g = some (vertices, g1) ∧
      generate_random_triangles_log rs numTriangles g = some ((vertices, log), g1) ∧
      (vertices.length : Int) = 3 * numTriangles ∧ vertices.length % 3 = 0 ∧
      (∀ p : Nat, (p : Int) < 3 * numTriangles →
        vertices[p]? = some (random_vertex rs (drawnState (random_vertex rs) g p)).1) ∧
      (log.length : Int) = 3 * numTriangles ∧
      (∀ p : Nat, (p : Int) < 3 * numTriangles → log.count (p : Int) = 1) ∧
      (∀ idx ∈ log, 0 ≤ idx ∧ idx < 3 * numTriangles) ∧
      (∀ j : Nat, (j : Int) < numTriangles * 3 / 3 →
        j * 3 + 0 < vertices.length ∧ j * 3 + 1 < vertices.length ∧
        j * 3 + 2 < vertices.length ∧
        (vertices[j * 3 + 0]?).isSome ∧ (vertices[j * 3 + 1]?).isSome ∧
        (vertices[j * 3 + 2]?).isSome) := by
  obtain ⟨N, rfl⟩ := Int.eq_ofNat_of_zero_le h0
  obtain ⟨vertices, hlog, hlen, hall⟩ :=
    generateWithLog_spec (⟨0, 0, 0⟩ : Vec3 K) (random_vertex rs) N g h3
  have hgen : generate_random_triangles rs (N : Int) g =
      some (vertices, drawnState (random_vertex rs) g (N * 3)) := by
    unfold generate_random_triangles
    rw [← generateWithLog_erase, hlog]
    rfl
  refine ⟨vertices, _, _, hgen, hlog, by omega, by omega, ?_, ?_, ?_, ?_, ?_⟩
  · intro p hp
    exact hall p (by omega)
  · rw [List.length_map, List.length_range]
    omega
  · intro p hp
    exact count_range_cast (N * 3) p (by omega)
  · intro idx hidx
    obtain ⟨p, hp, rfl⟩ := List.mem_map.mp hidx
    have := List.mem_range.mp hp
    constructor
    · exact Int.natCast_nonneg p
    · show (p : Int) < 3 * (N : Int)
      omega
  · intro j hj
    have hj1 : j < N := by omega
    refine ⟨by omega, by omega, by omega, ?_, ?_, ?_⟩
    · rw [List.getElem?_eq_getElem (by omega)]
      rfl
    · rw [List.getElem?_eq_getElem (by omega)]
      rfl
    · rw [List.getElem?_eq_getElem (by omega)]
      rfl

/-- C14 as amended, at one triangle drawn from the example source: the slice
is `triV0, triV1, triV2` and the indices assigned are `0, 1, 2`. -/
theorem C14_triangle_buffer_shape_witness :
    (0 : Int) ≤ 1 ∧ (1 : Int) * 3 < 2 ^ 63 ∧
    ∃ vertices g1 log,
      generate_random_triangles tableRand 1 0 = some (vertices, g1) ∧
      generate_random_triangles_log tableRand 1 0 = some ((vertices, log), g1) ∧
      vertices = [triV0, triV1, triV2] ∧
      (vertices.length : Int) = 3 * 1 ∧ (log.length : Int) = 3 * 1 ∧
      (∀ p : Nat, (p : Int) < 3 * 1 → log.count (p : Int) = 1) ∧
      (∀ idx ∈ log, 0 ≤ idx ∧ idx < 3 * 1) := by
  obtain ⟨vertices, g1, log, hgen, hlog, hlen, -, -, hloglen, hcount, hrange, -⟩ :=
    C14_triangle_buffer_shape tableRand 1 0 (by norm_num) (by norm_num)
  have hv : vertices = [triV0, triV1, triV2] := by
    have h := hgen
    rw [tableScene] at h
    exact (congrArg Prod.fst (Option.some.inj h)).symm
  exact ⟨by norm_num, by norm_num, vertices, g1, log, hgen, hlog, hv, hlen, hloglen, hcount,
    hrange⟩

end SceneClaims

section Rounding

theorem bitLen_zero (fuel : Nat) : bitLen fuel 0 = 0 := by
  cases fuel <;> rfl

/-- With enough fuel `bitLen` is the number of binary digits. -/
theorem bitLen_spec (fuel n : Nat) (h : n ≤ fuel) :
    n < 2 ^ bitLen fuel n ∧ (n ≠ 0 → 2 ^ bitLen fuel n ≤ 2 * n) := by
  induction fuel generalizing n with
  | zero =>
    have : n = 0 := by omega
    subst this
    exact ⟨by simp [bitLen], fun h => absurd rfl h⟩
  | succ f ih =>
    by_cases hn : n = 0
    · subst hn
      exact ⟨by simp [bitLen], fun h => absurd rfl h⟩
    · have hb : bitLen (f + 1) n = bitLen f (n / 2) + 1 := by
        simp [bitLen, hn]
      obtain ⟨h1, h2⟩ := ih (n / 2) (by omega)
      rw [hb, pow_succ]
      constructor
      · omega
      · intro _
        by_cases h0 : n / 2 = 0
        · rw [h0, bitLen_zero]
          omega
        · have := h2 h0
          omega

/-- The exponent computed by `ilog2` is the binary exponent of a non-zero
rational. -/
theorem ilog2_spec (x : ℚ) (hx : x ≠ 0) :
    (2 : ℚ) ^ ilog2 x ≤ |x| ∧ |x| < (2 : ℚ) ^ (ilog2 x + 1) := by
  have ha0 : x.num.natAbs ≠ 0 := by
    simpa using hx
  have hb0 : x.den ≠ 0 := x.den_nz
  obtain ⟨a1, a2⟩ := bitLen_spec x.num.natAbs x.num.natAbs le_rfl
  obtain ⟨b1, b2⟩ := bitLen_spec x.den x.den le_rfl
  have a2 := a2 ha0
  have b2 := b2 hb0
  have habs : |x| = (x.num.natAbs : ℚ) / (x.den : ℚ) := by
    conv_lhs => rw [← Rat.num_div_den x]
    rw [abs_div, Nat.cast_natAbs, Int.cast_abs]
    congr 1
    exact abs_of_pos (by exact_mod_cast Nat.pos_of_ne_zero hb0)
  have hbpos : (0 : ℚ) < (x.den : ℚ) := by exact_mod_cast Nat.pos_of_ne_zero hb0
  have qa1 : (x.num.natAbs : ℚ) < 2 ^ bitLen x.num.natAbs x.num.natAbs := by exact_mod_cast a1
  have qa2 : (2 : ℚ) ^ bitLen x.num.natAbs x.num.natAbs ≤ 2 * x.num.natAbs := by
    exact_mod_cast a2
  have qb1 : (x.den : ℚ) < 2 ^ bitLen x.den x.den := by exact_mod_cast b1
  have qb2 : (2 : ℚ) ^ bitLen x.den x.den ≤ 2 * x.den := by exact_mod_cast b2
  have hpA : (0 : ℚ) < 2 ^ bitLen x.num.natAbs x.num.natAbs := by positivity
  have hpB : (0 : ℚ) < 2 ^ bitLen x.den x.den := by positivity
  have he0 : (2 : ℚ) ^ ((bitLen x.num.natAbs x.num.natAbs : ℤ) - (bitLen x.den x.den : ℤ)) =
      2 ^ bitLen x.num.natAbs x.num.natAbs / 2 ^ bitLen x.den x.den := by
    rw [zpow_sub₀ (by norm_num), zpow_natCast, zpow_natCast]
  have hup : |x| < 2 ^ bitLen x.num.natAbs x.num.natAbs / 2 ^ bitLen x.den x.den * 2 := by
    rw [habs, div_mul_eq_mul_div, div_lt_div_iff₀ hbpos hpB]
    nlinarith
  have hlo : 2 ^ bitLen x.num.natAbs x.num.natAbs / 2 ^ bitLen x.den x.den * 2⁻¹ ≤ |x| := by
    rw [habs, ← div_eq_mul_inv, div_div, div_le_div_iff₀ (by positivity) hbpos]
    nlinarith
  unfold ilog2
  simp only
  split_ifs with h
  · refine ⟨h, ?_⟩
    rw [zpow_add_one₀ (by norm_num), he0]
    exact hup
  · constructor
    · rw [zpow_sub_one₀ (by norm_num), he0]
      exact hlo
    · rw [sub_add_cancel]
      exact not_le.mp h

/-- The value of `rne` is not below an integer that is not above the
argument. -/
theorem le_rne (x : ℚ) (k : ℤ) (h : (k : ℚ) ≤ x) : k ≤ rne x := by
  have hf : k ≤ ⌊x⌋ := Int.le_floor.mpr h
  unfold rne
  split_ifs <;> omega

/-- The value of `rne` is not above an integer that is not below the
argument. -/
theorem rne_le (x : ℚ) (k : ℤ) (h : x ≤ (k : ℚ)) : rne x ≤ k := by
  have hf : ⌊x⌋ ≤ k := Int.cast_le.mp (le_trans (Int.floor_le x) h)
  unfold rne
  by_cases h1 : x - ⌊x⌋ < 1 / 2
  · rw [if_pos h1]
    exact hf
  · have hlt : (⌊x⌋ : ℚ) < k := by linarith
    have : ⌊x⌋ < k := Int.cast_lt.mp hlt
    split_ifs <;> omega

theorem rne_intCast (k : ℤ) : rne (k : ℚ) = k :=
  le_antisymm (rne_le _ k le_rfl) (le_rne _ k le_rfl)

theorem ilog2_unique (x : ℚ) (hx : x ≠ 0) (e : ℤ) (h1 : (2 : ℚ) ^ e ≤ |x|)
    (h2 : |x| < (2 : ℚ) ^ (e + 1)) : ilog2 x = e := by
  obtain ⟨s1, s2⟩ := ilog2_spec x hx
  have a : ilog2 x < e + 1 :=
    (zpow_lt_zpow_iff_right₀ (by norm_num : (1 : ℚ) < 2)).mp (lt_of_le_of_lt s1 h2)
  have b : e < ilog2 x + 1 :=
    (zpow_lt_zpow_iff_right₀ (by norm_num : (1 : ℚ) < 2)).mp (lt_of_le_of_lt h1 s2)
  omega

/-- A power of two is an integer multiple of every smaller power of two. -/
theorem zpow_two_multiple (E F : ℤ) (h : E ≤ F) :
    ∃ j : ℤ, 0 < j ∧ (2 : ℚ) ^ F = (j : ℚ) * (2 : ℚ) ^ E := by
  refine ⟨2 ^ (F - E).toNat, by positivity, ?_⟩
  have hF : F = ((F - E).toNat : ℤ) + E := by omega
  conv_lhs => rw [hF]
  rw [zpow_add₀ (by norm_num), zpow_natCast]
  push_cast
  rfl

/-- Rounding to a multiple of `u` does not cross a multiple of `u`. -/
theorem rne_scaled_le (x u : ℚ) (j : ℤ) (hu : 0 < u) (h : x ≤ (j : ℚ) * u) :
    (rne (x / u) : ℚ) * u ≤ (j : ℚ) * u := by
  have h1 : x / u ≤ (j : ℚ) := by
    rw [div_le_iff₀ hu]
    exact h
  have h2 : ((rne (x / u) : ℤ) : ℚ) ≤ (j : ℚ) := by exact_mod_cast rne_le _ j h1
  exact mul_le_mul_of_nonneg_right h2 (le_of_lt hu)

/-- Rounding to a multiple of `u` does not cross a multiple of `u`. -/
theorem le_rne_scaled (x u : ℚ) (j : ℤ) (hu : 0 < u) (h : (j : ℚ) * u ≤ x) :
    (j : ℚ) * u ≤ (rne (x / u) : ℚ) * u := by
  have h1 : (j : ℚ) ≤ x / u := by
    rw [le_div_iff₀ hu]
    exact h
  have h2 : (j : ℚ) ≤ ((rne (x / u) : ℤ) : ℚ) := by exact_mod_cast le_rne _ j h1
  exact mul_le_mul_of_nonneg_right h2 (le_of_lt hu)

/-- The value `roundTo binary32 x`, with the exponent it uses. -/
theorem roundTo32_eq (x : ℚ) :
    roundTo binary32 x =
      if (2 : ℚ) ^ (128 : ℤ) ≤
          |(rne (x / 2 ^ (max (ilog2 x) (-126) - 23)) : ℚ) * 2 ^ (max (ilog2 x) (-126) - 23)|
      then Flt.inf (decide ((rne (x / 2 ^ (max (ilog2 x) (-126) - 23)) : ℚ) *
        2 ^ (max (ilog2 x) (-126) - 23) < 0))
      else Flt.fin ((rne (x / 2 ^ (max (ilog2 x) (-126) - 23)) : ℚ) *
        2 ^ (max (ilog2 x) (-126) - 23)) := by
  rfl

/-- The exponent used for a non-zero `x` of absolute value at most `2^F` is at
most `F`, when `F` is in the normal range. -/
theorem exponent_le (x : ℚ) (hx : x ≠ 0) (F : ℤ) (hF : -126 ≤ F) (h : |x| < (2 : ℚ) ^ (F + 1)) :
    max (ilog2 x) (-126) ≤ F := by
  obtain ⟨s1, -⟩ := ilog2_spec x hx
  have a : ilog2 x < F + 1 :=
    (zpow_lt_zpow_iff_right₀ (by norm_num : (1 : ℚ) < 2)).mp (lt_of_le_of_lt s1 h)
  exact max_le (by omega) hF

/-- The exponent used for an `x` of absolute value at least `2^F` is at least
`F`, and is the binary exponent of `x` when `F` is in the normal range. -/
theorem le_exponent (x : ℚ) (F : ℤ) (hF : -126 ≤ F) (h : (2 : ℚ) ^ F ≤ |x|) :
    F ≤ max (ilog2 x) (-126) ∧ (2 : ℚ) ^ max (ilog2 x) (-126) ≤ |x| := by
  have hx : x ≠ 0 := by
    intro h0
    rw [h0, abs_zero] at h
    exact absurd h (not_le.mpr (zpow_pos (by norm_num) F))
  obtain ⟨s1, s2⟩ := ilog2_spec x hx
  have a : F < ilog2 x + 1 :=
    (zpow_lt_zpow_iff_right₀ (by norm_num : (1 : ℚ) < 2)).mp (lt_of_le_of_lt h s2)
  have hm : max (ilog2 x) (-126) = ilog2 x := max_eq_left (by omega)
  rw [hm]
  exact ⟨by omega, s1⟩

end Rounding

section RoundingBounds

theorem roundTo32_zero : roundTo binary32 0 = Flt.fin 0 := by decide!

/-- A finite result of `roundTo binary32` is a multiple of the unit of the
exponent used. -/
theorem roundTo32_fin (x b : ℚ) (h : roundTo binary32 x = Flt.fin b) :
    b = (rne (x / 2 ^ (max (ilog2 x) (-126) - 23)) : ℚ) * 2 ^ (max (ilog2 x) (-126) - 23) := by
  rw [roundTo32_eq] at h
  split_ifs at h
  exact (Flt.fin.inj h).symm

/-- Rounding keeps a value of `[-1, 1 - 2^-23]` in this interval. -/
theorem roundTo32_range (x : ℚ) (h1 : -1 ≤ x) (h2 : x ≤ 1 - 1 / 2 ^ 23) :
    ∃ y, roundTo binary32 x = Flt.fin y ∧ -1 ≤ y ∧ y ≤ 1 - 1 / 2 ^ 23 := by
  by_cases hx : x = 0
  · subst hx
    exact ⟨0, roundTo32_zero, by norm_num, by norm_num⟩
  have habs : |x| < (2 : ℚ) ^ ((0 : ℤ) + 1) := by
    rw [abs_lt]
    constructor <;> norm_num <;> linarith
  have hE := exponent_le x hx 0 (by norm_num) habs
  have hE2 : (-126 : ℤ) ≤ max (ilog2 x) (-126) := le_max_right _ _
  rw [roundTo32_eq]
  generalize max (ilog2 x) (-126) = E at hE hE2 ⊢
  have hu : (0 : ℚ) < 2 ^ (E - 23) := zpow_pos (by norm_num) _
  obtain ⟨j1, -, hj1⟩ := zpow_two_multiple (E - 23) 0 (by omega)
  obtain ⟨j2, -, hj2⟩ := zpow_two_multiple (E - 23) (-23) (by omega)
  have e23 : (2 : ℚ) ^ (-23 : ℤ) = 1 / 2 ^ 23 := by norm_num
  rw [zpow_zero] at hj1
  rw [e23] at hj2
  have lo := le_rne_scaled x (2 ^ (E - 23)) (-j1) hu (by push_cast; linarith)
  have hi := rne_scaled_le x (2 ^ (E - 23)) (j1 - j2) hu (by push_cast; linarith)
  have lo2 : -1 ≤ (rne (x / 2 ^ (E - 23)) : ℚ) * 2 ^ (E - 23) := by
    push_cast at lo
    linarith
  have hi2 : (rne (x / 2 ^ (E - 23)) : ℚ) * 2 ^ (E - 23) ≤ 1 - 1 / 2 ^ 23 := by
    push_cast at hi
    linarith
  have hno : ¬ (2 : ℚ) ^ (128 : ℤ) ≤ |(rne (x / 2 ^ (E - 23)) : ℚ) * 2 ^ (E - 23)| := by
    rw [not_le, abs_lt]
    constructor
    · have : (0 : ℚ) < 2 ^ (128 : ℤ) := zpow_pos (by norm_num) _
      linarith
    · have : (1 : ℚ) < 2 ^ (128 : ℤ) := by norm_num
      linarith
  rw [if_neg hno]
  exact ⟨_, rfl, lo2, hi2⟩

/-- A `float32` value below 1 is at most `1 - 2^-24`. -/
theorem float32_lt_one (q : ℚ) (h : roundTo binary32 q = Flt.fin q) (h1 : q < 1) :
    q ≤ 1 - 1 / 2 ^ 24 := by
  by_cases hq : q ≤ 1 / 2
  · linarith [show (1 / 2 : ℚ) ≤ 1 - 1 / 2 ^ 24 by norm_num]
  have hq2 : (1 / 2 : ℚ) < q := not_le.mp hq
  have hx : q ≠ 0 := by
    intro h0
    rw [h0] at hq2
    norm_num at hq2
  have habs : |q| = q := abs_of_pos (by linarith)
  have hlo := (le_exponent q (-1) (by norm_num) (by rw [habs]; norm_num; linarith)).1
  have hhi := exponent_le q hx (-1) (by norm_num) (by rw [habs]; norm_num; linarith)
  have hE : max (ilog2 q) (-126) = -1 := le_antisymm hhi hlo
  have hb := roundTo32_fin q q h
  rw [hE] at hb
  have hu : ((-1 : ℤ) - 23) = -24 := by norm_num
  rw [hu] at hb
  have e24 : (2 : ℚ) ^ (-24 : ℤ) = 1 / 2 ^ 24 := by norm_num
  rw [e24] at hb
  have hn : (rne (q / (1 / 2 ^ 24)) : ℚ) < 2 ^ 24 := by
    have : (rne (q / (1 / 2 ^ 24)) : ℚ) * (1 / 2 ^ 24) < 1 := by rw [← hb]; exact h1
    have h24 : (0 : ℚ) < 1 / 2 ^ 24 := by norm_num
    calc (rne (q / (1 / 2 ^ 24)) : ℚ) = (rne (q / (1 / 2 ^ 24)) : ℚ) * (1 / 2 ^ 24) * 2 ^ 24 := by
          field_simp
      _ < 1 * 2 ^ 24 := by
          exact mul_lt_mul_of_pos_right this (by norm_num)
      _ = 2 ^ 24 := one_mul _
  have hn2 : rne (q / (1 / 2 ^ 24)) < 2 ^ 24 := by exact_mod_cast hn
  have hn3 : rne (q / (1 / 2 ^ 24)) ≤ 2 ^ 24 - 1 := by omega
  have hn4 : (rne (q / (1 / 2 ^ 24)) : ℚ) ≤ 2 ^ 24 - 1 := by exact_mod_cast hn3
  rw [hb]
  calc (rne (q / (1 / 2 ^ 24)) : ℚ) * (1 / 2 ^ 24) ≤ (2 ^ 24 - 1) * (1 / 2 ^ 24) :=
        mul_le_mul_of_nonneg_right hn4 (by norm_num)
    _ = 1 - 1 / 2 ^ 24 := by norm_num

/-- Doubling a `float32` value below 1 in absolute value is exact. -/
theorem roundTo32_double (q : ℚ) (h : roundTo binary32 q = Flt.fin q) (h1 : |q| < 1) :
    roundTo binary32 (2 * q) = Flt.fin (2 * q) := by
  by_cases hx : q = 0
  · subst hx
    rw [mul_zero]
    exact roundTo32_zero
  have hx2 : 2 * q ≠ 0 := mul_ne_zero (by norm_num) hx
  obtain ⟨s1, s2⟩ := ilog2_spec q hx
  have hlog : ilog2 (2 * q) = ilog2 q + 1 := by
    apply ilog2_unique _ hx2
    · rw [abs_mul, zpow_add_one₀ (by norm_num)]
      rw [show |(2 : ℚ)| = 2 by norm_num]
      linarith
    · rw [abs_mul, zpow_add_one₀ (by norm_num)]
      rw [show |(2 : ℚ)| = 2 by norm_num]
      linarith
  have hb := roundTo32_fin q q h
  have hno : ¬ (2 : ℚ) ^ (128 : ℤ) ≤ |2 * q| := by
    rw [not_le, abs_mul, show |(2 : ℚ)| = 2 by norm_num]
    have : (2 : ℚ) < 2 ^ (128 : ℤ) := by norm_num
    linarith
  rw [roundTo32_eq, hlog]
  by_cases hn : -126 ≤ ilog2 q
  · have m1 : max (ilog2 q) (-126) = ilog2 q := max_eq_left hn
    have m2 : max (ilog2 q + 1) (-126) = ilog2 q + 1 := max_eq_left (by omega)
    rw [m1] at hb
    rw [m2]
    have hu : (0 : ℚ) < 2 ^ (ilog2 q - 23) := zpow_pos (by norm_num) _
    have hu2 : (2 : ℚ) ^ (ilog2 q + 1 - 23) = 2 ^ (ilog2 q - 23) * 2 := by
      rw [show ilog2 q + 1 - 23 = ilog2 q - 23 + 1 by ring, zpow_add_one₀ (by norm_num)]
    have hdiv : 2 * q / (2 ^ (ilog2 q - 23) * 2) = q / 2 ^ (ilog2 q - 23) := by
      field_simp
      ring
    rw [hu2, hdiv]
    have hy : (rne (q / 2 ^ (ilog2 q - 23)) : ℚ) * (2 ^ (ilog2 q - 23) * 2) = 2 * q := by
      rw [← mul_assoc, ← hb]
      ring
    rw [hy, if_neg hno]
  · have m1 : max (ilog2 q) (-126) = -126 := max_eq_right (by omega)
    have m2 : max (ilog2 q + 1) (-126) = -126 := max_eq_right (by omega)
    rw [m1] at hb
    rw [m2]
    have hu : (0 : ℚ) < 2 ^ ((-126 : ℤ) - 23) := zpow_pos (by norm_num) _
    obtain ⟨n, hn⟩ : ∃ n : ℤ, q = (n : ℚ) * 2 ^ ((-126 : ℤ) - 23) := ⟨_, hb⟩
    have hdiv : 2 * q / 2 ^ ((-126 : ℤ) - 23) = ((2 * n : ℤ) : ℚ) := by
      rw [eq_comm, eq_div_iff (ne_of_gt hu), hn]
      push_cast
      ring
    have hy : ((2 * n : ℤ) : ℚ) * 2 ^ ((-126 : ℤ) - 23) = 2 * q := by
      rw [hn]
      push_cast
      ring
    rw [hdiv, rne_intCast, hy, if_neg hno]

/-- Rounding a value of at least `1 + 2^-23` gives a result of at least
`1 + 2^-23`, or an overflow. -/
theorem roundTo32_above_one (x : ℚ) (h : 1 + 1 / 2 ^ 23 ≤ x) :
    roundTo binary32 x = Flt.inf false ∨
      ∃ y, roundTo binary32 x = Flt.fin y ∧ 1 + 1 / 2 ^ 23 ≤ y := by
  have hpos : 0 < x := by
    have : (0 : ℚ) < 1 + 1 / 2 ^ 23 := by norm_num
    linarith
  have habs : |x| = x := abs_of_pos hpos
  obtain ⟨hE, hpow⟩ := le_exponent x 0 (by norm_num) (by rw [habs, zpow_zero]; linarith [show (0 : ℚ) ≤ 1 / 2 ^ 23 by norm_num])
  rw [habs] at hpow
  rw [roundTo32_eq]
  generalize max (ilog2 x) (-126) = E at hE hpow ⊢
  have hu : (0 : ℚ) < 2 ^ (E - 23) := zpow_pos (by norm_num) _
  have hy : 1 + 1 / 2 ^ 23 ≤ (rne (x / 2 ^ (E - 23)) : ℚ) * 2 ^ (E - 23) := by
    rcases eq_or_lt_of_le hE with h0 | h0
    · subst h0
      have e23 : (2 : ℚ) ^ ((0 : ℤ) - 23) = 1 / 2 ^ 23 := by norm_num
      rw [e23] at hu ⊢
      have := le_rne_scaled x (1 / 2 ^ 23) (2 ^ 23 + 1) hu (by push_cast; linarith [show ((2 : ℚ) ^ 23 + 1) * (1 / 2 ^ 23) = 1 + 1 / 2 ^ 23 by norm_num])
      push_cast at this
      linarith [show ((2 : ℚ) ^ 23 + 1) * (1 / 2 ^ 23) = 1 + 1 / 2 ^ 23 by norm_num]
    · obtain ⟨j, -, hj⟩ := zpow_two_multiple (E - 23) E (by omega)
      have := le_rne_scaled x (2 ^ (E - 23)) j hu (by rw [← hj]; exact hpow)
      rw [← hj] at this
      have h2 : (2 : ℚ) ^ (1 : ℤ) ≤ 2 ^ E := zpow_le_zpow_right₀ (by norm_num) (by omega)
      have h3 : (1 : ℚ) + 1 / 2 ^ 23 ≤ 2 ^ (1 : ℤ) := by norm_num
      linarith
  split_ifs with hov
  · left
    have : ¬ ((rne (x / 2 ^ (E - 23)) : ℚ) * 2 ^ (E - 23) < 0) := by
      have : (0 : ℚ) < 1 + 1 / 2 ^ 23 := by norm_num
      linarith
    simp [this]
  · right
    exact ⟨_, rfl, hy⟩

/-- A finite result of `roundTo binary32` above 1 is at least `1 + 2^-23`. -/
theorem roundTo32_gt_one (z b : ℚ) (h : roundTo binary32 z = Flt.fin b) (hb : 1 < b) :
    1 + 1 / 2 ^ 23 ≤ b := by
  have hform := roundTo32_fin z b h
  have hE2 : (-126 : ℤ) ≤ max (ilog2 z) (-126) := le_max_right _ _
  have hu : (0 : ℚ) < 2 ^ (max (ilog2 z) (-126) - 23) := zpow_pos (by norm_num) _
  by_cases hz : z ≤ 0
  · have := rne_scaled_le z _ 0 hu (by push_cast; linarith)
    push_cast at this
    rw [zero_mul] at this
    linarith
  have hzpos : 0 < z := not_le.mp hz
  have habs : |z| = z := abs_of_pos hzpos
  by_cases hz1 : z < 1
  · have hE := exponent_le z (ne_of_gt hzpos) (-1) (by norm_num)
      (by rw [habs]; norm_num; exact hz1)
    obtain ⟨j, -, hj⟩ := zpow_two_multiple (max (ilog2 z) (-126) - 23) 0 (by omega)
    rw [zpow_zero] at hj
    have := rne_scaled_le z _ j hu (by rw [← hj]; linarith)
    rw [← hj] at this
    linarith
  · have hz2 : 1 ≤ z := not_lt.mp hz1
    obtain ⟨hE, hpow⟩ := le_exponent z 0 (by norm_num) (by rw [habs, zpow_zero]; exact hz2)
    rw [habs] at hpow
    generalize max (ilog2 z) (-126) = E at hE hpow hform hu
    rcases eq_or_lt_of_le hE with h0 | h0
    · subst h0
      have e23 : (2 : ℚ) ^ ((0 : ℤ) - 23) = 1 / 2 ^ 23 := by norm_num
      rw [e23] at hform
      have hn : (2 : ℚ) ^ 23 < (rne (z / (1 / 2 ^ 23)) : ℚ) := by
        have : (1 : ℚ) < (rne (z / (1 / 2 ^ 23)) : ℚ) * (1 / 2 ^ 23) := by rw [← hform]; exact hb
        calc (2 : ℚ) ^ 23 = 1 * 2 ^ 23 := (one_mul _).symm
          _ < (rne (z / (1 / 2 ^ 23)) : ℚ) * (1 / 2 ^ 23) * 2 ^ 23 :=
              mul_lt_mul_of_pos_right this (by norm_num)
          _ = (rne (z / (1 / 2 ^ 23)) : ℚ) := by field_simp
      have hn2 : (2 : ℤ) ^ 23 < rne (z / (1 / 2 ^ 23)) := by exact_mod_cast hn
      have hn3 : (2 : ℤ) ^ 23 + 1 ≤ rne (z / (1 / 2 ^ 23)) := by omega
      have hn4 : (2 : ℚ) ^ 23 + 1 ≤ (rne (z / (1 / 2 ^ 23)) : ℚ) := by exact_mod_cast hn3
      rw [hform]
      calc (1 : ℚ) + 1 / 2 ^ 23 = (2 ^ 23 + 1) * (1 / 2 ^ 23) := by norm_num
        _ ≤ (rne (z / (1 / 2 ^ 23)) : ℚ) * (1 / 2 ^ 23) :=
            mul_le_mul_of_nonneg_right hn4 (by norm_num)
    · obtain ⟨j, -, hj⟩ := zpow_two_multiple (E - 23) E (by omega)
      have := le_rne_scaled z (2 ^ (E - 23)) j hu (by rw [← hj]; exact hpow)
      rw [← hj, ← hform] at this
      have h2 : (2 : ℚ) ^ (1 : ℤ) ≤ 2 ^ E := zpow_le_zpow_right₀ (by norm_num) (by omega)
      have h3 : (1 : ℚ) + 1 / 2 ^ 23 ≤ 2 ^ (1 : ℤ) := by norm_num
      linarith

end RoundingBounds

section FloatClaims

variable {G : Type}

/-- The `float32` function written with its named locals. -/
theorem ray_triangle_intersect32_eq (r : Ray Flt) (v0 v1 v2 : Vec3 Flt) :
    ray_triangle_intersect32 r v0 v1 v2 =
      if Flt.lt (rtiDet32 r v0 v1 v2) EPSILON32 then Flt.inf true
      else if Flt.lt (rtiU32 r v0 v1 v2) (Flt.fin 0) || Flt.gt (rtiU32 r v0 v1 v2) (Flt.fin 1)
        then Flt.inf true
      else if Flt.lt (rtiV32 r v0 v1 v2) (Flt.fin 0) ||
          Flt.gt (Flt.add binary32 (rtiU32 r v0 v1 v2) (rtiV32 r v0 v1 v2)) (Flt.fin 1)
        then Flt.inf true
      else rtiT32 r v0 v1 v2 := by
  rfl

theorem EPSILON32_eq : EPSILON32 = Flt.fin (8796093 / 2 ^ 43) := by decide!

/-- A true `>=` means a false `<`. -/
theorem Flt.lt_of_ge (a b : Flt) (h : Flt.ge a b = true) : Flt.lt a b = false := by
  cases a <;> cases b <;> simp_all [Flt.ge]

/-- C2 fails as stated: the ray `downRay` and the triangle `zeroV, thinV1,
thinV2` are `float32` data on which `det` is `8796093/2^43`, the `float32`
nearest to `0.000001`; this `det` is below `1e-6`, yet the comparison with the
converted literal lets it pass and the function returns `t = 1`, which the
worker counts as a hit. -/
theorem C2_counterexample :
    EPSILON32 = Flt.fin (8796093 / 2 ^ 43) ∧
    roundTo binary32 (8796093 / 2 ^ 42) = Flt.fin (8796093 / 2 ^ 42) ∧
    rtiDet32 downRay.toFlt zeroV.toFlt thinV1.toFlt thinV2.toFlt = Flt.fin (8796093 / 2 ^ 43) ∧
    (8796093 / 2 ^ 43 : ℚ) < 1 / 1000000 ∧
    ray_triangle_intersect32 downRay.toFlt zeroV.toFlt thinV1.toFlt thinV2.toFlt = Flt.fin 1 ∧
    tally32 (ray_triangle_intersect32 downRay.toFlt zeroV.toFlt thinV1.toFlt thinV2.toFlt)
      ⟨0, 0⟩ = ⟨1, 0⟩ := by
  decide!

/-- C2 as amended. In `float32` arithmetic: whenever the computed `det` is
below the `float32` value of the literal `0.000001`, which is `8796093/2^43`
(slightly less than `1e-6`), the function returns the no-hit sentinel; this
covers negative infinity, every negative `det`, `det = 0` and the small
positive values alike (the test is single-sided). -/
theorem C2_det_below_float_epsilon_is_no_hit (r : Ray Flt) (v0 v1 v2 : Vec3 Flt)
    (h : Flt.lt (rtiDet32 r v0 v1 v2) (Flt.fin (8796093 / 2 ^ 43)) = true) :
    EPSILON32 = Flt.fin (8796093 / 2 ^ 43) ∧
    ray_triangle_intersect32 r v0 v1 v2 = Flt.inf true := by
  refine ⟨EPSILON32_eq, ?_⟩
  rw [ray_triangle_intersect32_eq, EPSILON32_eq, if_pos h]

/-- C2 as amended, at the example triangle with reversed winding, where
`det = -1`. -/
theorem C2_det_below_float_epsilon_is_no_hit_witness :
    rtiDet32 frontRay.toFlt triV0.toFlt triV2.toFlt triV1.toFlt = Flt.fin (-1) ∧
    ray_triangle_intersect32 frontRay.toFlt triV0.toFlt triV2.toFlt triV1.toFlt =
      Flt.inf true :=
  ⟨by decide!,
   (C2_det_below_float_epsilon_is_no_hit frontRay.toFlt triV0.toFlt triV2.toFlt triV1.toFlt
    (by decide!)).2⟩

/-- A finite product is the rounding of an exact value. -/
theorem Flt.mul_eq_fin (a b : Flt) (q : ℚ) (h : Flt.mul binary32 a b = Flt.fin q) :
    ∃ z, roundTo binary32 z = Flt.fin q := by
  cases a with
  | nan => simp [Flt.mul] at h
  | inf s =>
    cases b with
    | nan => simp [Flt.mul] at h
    | inf t => simp [Flt.mul] at h
    | fin y =>
      simp only [Flt.mul] at h
      split_ifs at h
  | fin x =>
    cases b with
    | nan => simp [Flt.mul] at h
    | inf t =>
      simp only [Flt.mul] at h
      split_ifs at h
    | fin y => exact ⟨x * y, h⟩

/-- The `float32` sum of a number `u` in `[0, 1]` and a `float32` number
`v > 1` is above 1. -/
theorem Flt.add_gt_one (u v : Flt) (hu0 : Flt.lt u (Flt.fin 0) = false)
    (hu1 : Flt.gt u (Flt.fin 1) = false) (hun : u ≠ Flt.nan)
    (hv : Flt.gt v (Flt.fin 1) = true) (hvr : ∀ q, v = Flt.fin q → ∃ z, roundTo binary32 z = Flt.fin q) :
    Flt.gt (Flt.add binary32 u v) (Flt.fin 1) = true := by
  cases u with
  | nan => exact absurd rfl hun
  | inf s =>
    cases s <;> simp [Flt.lt, Flt.gt] at hu0 hu1
  | fin a =>
    have ha : 0 ≤ a := by simpa [Flt.lt] using hu0
    cases v with
    | nan => simp [Flt.gt, Flt.lt] at hv
    | inf t =>
      cases t
      · simp [Flt.add, Flt.gt, Flt.lt]
      · simp [Flt.gt, Flt.lt] at hv
    | fin b =>
      have hb : 1 < b := by simpa [Flt.gt, Flt.lt] using hv
      obtain ⟨z, hz⟩ := hvr b rfl
      have hb2 := roundTo32_gt_one z b hz hb
      rcases roundTo32_above_one (a + b) (by linarith) with h | ⟨y, h, hy⟩
      · simp [Flt.add, h, Flt.gt, Flt.lt]
      · have : (1 : ℚ) < y := by
          have : (0 : ℚ) < 1 / 2 ^ 23 := by norm_num
          linarith
        simp [Flt.add, h, Flt.gt, Flt.lt, this]

/-- C3 fails as stated, in two ways.  On `nearEdgeRay` and the triangle
`zeroV, unitV1, unitV2` the function computes `det = 1`, `u = 1/2`,
`v = 1/2 + 2^-24`, so `u + v > 1`; the `float32` sum `u + v` rounds to `1`,
the test `u+v > 1` is false and the function returns `t = 1`.  On `farRay` and
the triangle `zeroV, unitV1, slantV2` it computes `det = 2`, `u = NaN` and
`v = 2^126 > 1`; every comparison with NaN is false and it returns `t = 1`. -/
theorem C3_counterexample :
    rtiDet32 nearEdgeRay.toFlt zeroV.toFlt unitV1.toFlt unitV2.toFlt = Flt.fin 1 ∧
    rtiU32 nearEdgeRay.toFlt zeroV.toFlt unitV1.toFlt unitV2.toFlt = Flt.fin (1 / 2) ∧
    rtiV32 nearEdgeRay.toFlt zeroV.toFlt unitV1.toFlt unitV2.toFlt =
      Flt.fin (1 / 2 + 1 / 2 ^ 24) ∧
    (1 : ℚ) < 1 / 2 + (1 / 2 + 1 / 2 ^ 24) ∧
    roundTo binary32 (1 / 2 + 1 / 2 ^ 24) = Flt.fin (1 / 2 + 1 / 2 ^ 24) ∧
    ray_triangle_intersect32 nearEdgeRay.toFlt zeroV.toFlt unitV1.toFlt unitV2.toFlt =
      Flt.fin 1 ∧
    rtiDet32 farRay.toFlt zeroV.toFlt unitV1.toFlt slantV2.toFlt = Flt.fin 2 ∧
    rtiU32 farRay.toFlt zeroV.toFlt unitV1.toFlt slantV2.toFlt = Flt.nan ∧
    rtiV32 farRay.toFlt zeroV.toFlt unitV1.toFlt slantV2.toFlt = Flt.fin (2 ^ 126) ∧
    ray_triangle_intersect32 farRay.toFlt zeroV.toFlt unitV1.toFlt slantV2.toFlt =
      Flt.fin 1 := by
  decide!

/-- C3 as amended. In `float32` arithmetic, with `det` not below the `float32`
value of `0.000001` and `u`, `v` the values the function computes: if `u < 0`,
or `u > 1`, or `v < 0`, or the `float32` sum `u + v` is above 1, the function
returns the no-hit sentinel; and so it does when `v > 1`, provided `u` is not
NaN. -/
theorem C3_outside_barycentric32_is_no_hit (r : Ray Flt) (v0 v1 v2 : Vec3 Flt)
    (hd : Flt.ge (rtiDet32 r v0 v1 v2) EPSILON32 = true)
    (h : Flt.lt (rtiU32 r v0 v1 v2) (Flt.fin 0) = true ∨
      Flt.gt (rtiU32 r v0 v1 v2) (Flt.fin 1) = true ∨
      Flt.lt (rtiV32 r v0 v1 v2) (Flt.fin 0) = true ∨
      (Flt.gt (rtiV32 r v0 v1 v2) (Flt.fin 1) = true ∧ rtiU32 r v0 v1 v2 ≠ Flt.nan) ∨
      Flt.gt (Flt.add binary32 (rtiU32 r v0 v1 v2) (rtiV32 r v0 v1 v2)) (Flt.fin 1) = true) :
    ray_triangle_intersect32 r v0 v1 v2 = Flt.inf true := by
  have hdet : Flt.lt (rtiDet32 r v0 v1 v2) EPSILON32 = false := Flt.lt_of_ge _ _ hd
  rw [ray_triangle_intersect32_eq, hdet]
  simp only [Bool.false_eq_true, if_false]
  by_cases hu : (Flt.lt (rtiU32 r v0 v1 v2) (Flt.fin 0) ||
      Flt.gt (rtiU32 r v0 v1 v2) (Flt.fin 1)) = true
  · rw [if_pos hu]
  rw [if_neg hu]
  have hu0 : Flt.lt (rtiU32 r v0 v1 v2) (Flt.fin 0) = false := by
    cases hc : Flt.lt (rtiU32 r v0 v1 v2) (Flt.fin 0)
    · rfl
    · rw [hc] at hu
      simp at hu
  have hu1 : Flt.gt (rtiU32 r v0 v1 v2) (Flt.fin 1) = false := by
    cases hc : Flt.gt (rtiU32 r v0 v1 v2) (Flt.fin 1)
    · rfl
    · rw [hc] at hu
      simp at hu
  have hsum : (Flt.lt (rtiV32 r v0 v1 v2) (Flt.fin 0) ||
      Flt.gt (Flt.add binary32 (rtiU32 r v0 v1 v2) (rtiV32 r v0 v1 v2)) (Flt.fin 1)) = true := by
    rcases h with h | h | h | ⟨h, hn⟩ | h
    · rw [hu0] at h
      exact absurd h (by simp)
    · rw [hu1] at h
      exact absurd h (by simp)
    · rw [h]
      rfl
    · have := Flt.add_gt_one _ _ hu0 hu1 hn h
        (fun q hq => Flt.mul_eq_fin _ _ q (by rw [← hq]; rfl))
      rw [this]
      simp
    · rw [h]
      simp
  rw [if_pos hsum]

/-- C3 as amended, at `wideRay` and the example triangle, where the program
computes `u = 0` and `v = 2 > 1`. -/
theorem C3_outside_barycentric32_is_no_hit_witness :
    rtiU32 wideRay.toFlt triV0.toFlt triV1.toFlt triV2.toFlt = Flt.fin 0 ∧
    rtiV32 wideRay.toFlt triV0.toFlt triV1.toFlt triV2.toFlt = Flt.fin 2 ∧
    ray_triangle_intersect32 wideRay.toFlt triV0.toFlt triV1.toFlt triV2.toFlt =
      Flt.inf true :=
  ⟨by decide!, by decide!,
   C3_outside_barycentric32_is_no_hit wideRay.toFlt triV0.toFlt triV1.toFlt triV2.toFlt
    (by decide!) (Or.inr (Or.inr (Or.inr (Or.inl ⟨by decide!, by decide!⟩))))⟩

/-- C5 fails as stated: for `planeRay` both windings of the triangle `zeroV,
skewV1, skewV2` have the `float32` determinant `2` (the exact determinant is
`0`), and the function returns the finite value `0` for both, so both windings
are reported as intersected. -/
theorem C5_counterexample :
    rtiDet planeRay zeroV skewV1 skewV2 = 0 ∧
    rtiDet32 planeRay.toFlt zeroV.toFlt skewV1.toFlt skewV2.toFlt = Flt.fin 2 ∧
    rtiDet32 planeRay.toFlt zeroV.toFlt skewV2.toFlt skewV1.toFlt = Flt.fin 2 ∧
    ray_triangle_intersect32 planeRay.toFlt zeroV.toFlt skewV1.toFlt skewV2.toFlt =
      Flt.fin 0 ∧
    ray_triangle_intersect32 planeRay.toFlt zeroV.toFlt skewV2.toFlt skewV1.toFlt =
      Flt.fin 0 := by
  decide!

/-- The scene of one triangle is the list of the first three vertices drawn. -/
theorem generate_random_triangles32_one (rs : RandSrc Flt G) (g0 : G) :
    generate_random_triangles32 rs 1 g0 =
      some ([(random_vertex32 rs g0).1,
        (random_vertex32 rs (random_vertex32 rs g0).2).1,
        (random_vertex32 rs (random_vertex32 rs (random_vertex32 rs g0).2).2).1],
        (random_vertex32 rs (random_vertex32 rs (random_vertex32 rs g0).2).2).2) := by
  obtain ⟨vertices, hgen, hlen, hall⟩ := generateWith_spec
    (⟨Flt.fin 0, Flt.fin 0, Flt.fin 0⟩ : Vec3 Flt) (random_vertex32 rs) 1 g0 (by norm_num)
  have e0 := hall 0 (by norm_num)
  have e1 := hall 1 (by norm_num)
  have e2 := hall 2 (by norm_num)
  rw [Nat.cast_one] at hgen
  unfold generate_random_triangles32
  rw [hgen]
  rcases vertices with _ | ⟨a, _ | ⟨b, _ | ⟨c, _ | ⟨d, l⟩⟩⟩⟩
  · simp at hlen
  · simp at hlen
  · simp at hlen
  · simp only [List.getElem?_cons_zero, List.getElem?_cons_succ, Option.some.injEq] at e0 e1 e2
    rw [e0, e1, e2]
    rfl
  · simp at hlen

/-- Once `u ≥ 0`, `v ≥ 0` and the `float32` sum `u + v` is at most 1, the
test `u > 1` is false. -/
theorem Flt.not_gt_one (u v : Flt) (hu : Flt.ge u (Flt.fin 0) = true)
    (hv : Flt.ge v (Flt.fin 0) = true)
    (huv : Flt.ge (Flt.fin 1) (Flt.add binary32 u v) = true)
    (hur : ∀ q, u = Flt.fin q → ∃ z, roundTo binary32 z = Flt.fin q) :
    Flt.gt u (Flt.fin 1) = false := by
  cases u with
  | nan => simp [Flt.ge] at hu
  | inf s =>
    cases s
    · cases v with
      | nan => simp [Flt.ge] at hv
      | inf t =>
        cases t
        · simp [Flt.add, Flt.ge, Flt.lt] at huv
        · simp [Flt.ge, Flt.lt] at hv
      | fin b => simp [Flt.add, Flt.ge, Flt.lt] at huv
    · simp [Flt.ge, Flt.lt] at hu
  | fin a =>
    cases v with
    | nan => simp [Flt.ge] at hv
    | inf t =>
      cases t
      · simp [Flt.add, Flt.ge, Flt.lt] at huv
      · simp [Flt.ge, Flt.lt] at hv
    | fin b =>
      have hb : 0 ≤ b := by simpa [Flt.ge, Flt.lt] using hv
      by_contra hgt
      have ha : 1 < a := by simpa [Flt.gt, Flt.lt] using hgt
      obtain ⟨z, hz⟩ := hur a rfl
      have ha2 := roundTo32_gt_one z a hz ha
      have hpos : (0 : ℚ) < 1 / 2 ^ 23 := by norm_num
      rcases roundTo32_above_one (a + b) (by linarith) with h | ⟨y, h, hy⟩
      · simp [Flt.add, h, Flt.ge, Flt.lt] at huv
      · have : (1 : ℚ) < y := by linarith
        simp [Flt.add, h, Flt.ge, Flt.lt, this] at huv

/-- C10 fails as stated: the scene generated from `edgeRand` is the triangle
`edgeV0, edgeV1, edgeV2` and the ray sampled is `edgeRay`; in exact arithmetic
the ray hits the triangle from its front side (`det ≥ 1e-6`, `u > 0`, `v > 0`,
`u + v < 1`, `t ≥ 0`); the program computes the `float32` sum
`u + v = 1 + 2^-23 > 1`, returns the sentinel and ends with `numHit = 0`,
`numMiss = 1`. -/
theorem C10_counterexample :
    generate_random_triangles32 edgeRand 1 0 =
      some ([edgeV0.toFlt, edgeV1.toFlt, edgeV2.toFlt], 9) ∧
    (sampleRay32 goMath edgeRand 0).1 = edgeRay.toFlt ∧
    (1 / 1000000 ≤ rtiDet edgeRay edgeV0 edgeV1 edgeV2 ∧
      0 < rtiU edgeRay edgeV0 edgeV1 edgeV2 ∧ 0 < rtiV edgeRay edgeV0 edgeV1 edgeV2 ∧
      rtiU edgeRay edgeV0 edgeV1 edgeV2 + rtiV edgeRay edgeV0 edgeV1 edgeV2 < 1 ∧
      0 ≤ rtiT edgeRay edgeV0 edgeV1 edgeV2) ∧
    Flt.add binary32 (rtiU32 edgeRay.toFlt edgeV0.toFlt edgeV1.toFlt edgeV2.toFlt)
      (rtiV32 edgeRay.toFlt edgeV0.toFlt edgeV1.toFlt edgeV2.toFlt) =
      Flt.fin (1 + 1 / 2 ^ 23) ∧
    ray_triangle_intersect32 edgeRay.toFlt edgeV0.toFlt edgeV1.toFlt edgeV2.toFlt =
      Flt.inf true ∧
    mainWith32 goMath edgeRand 1 1 0 1 (fun _ => 0) [0] = some ⟨0, 1, 1⟩ := by
  decide!

/-- C10 as amended. End-to-end single test in `float32`: with the pipeline run
on one triangle and one ray and `nParallel = 1`, where `v0, v1, v2` are the
three vertices the generator draws and `r` is the ray the worker samples, if
the quantities the program computes in `float32` satisfy `det ≥
float32(0.000001)`, `u ≥ 0`, `v ≥ 0`, `u + v ≤ 1` (the `float32` sum) and
`t ≥ 0`, then `main` ends with `numHit = 1`, `numMiss = 0` (and
`num_tests = 1`). -/
theorem C10_single_test32_end_to_end (m : MathFns Flt) (rs : RandSrc Flt G) (g0 : G)
    (seeds : Nat → G) (v0 v1 v2 : Vec3 Flt) (r : Ray Flt)
    (h0 : v0 = (random_vertex32 rs g0).1)
    (h1 : v1 = (random_vertex32 rs (random_vertex32 rs g0).2).1)
    (h2 : v2 = (random_vertex32 rs (random_vertex32 rs (random_vertex32 rs g0).2).2).1)
    (hr : r = (sampleRay32 m rs (seeds 0)).1)
    (hd : Flt.ge (rtiDet32 r v0 v1 v2) EPSILON32 = true)
    (hu : Flt.ge (rtiU32 r v0 v1 v2) (Flt.fin 0) = true)
    (hv : Flt.ge (rtiV32 r v0 v1 v2) (Flt.fin 0) = true)
    (huv : Flt.ge (Flt.fin 1) (Flt.add binary32 (rtiU32 r v0 v1 v2) (rtiV32 r v0 v1 v2)) = true)
    (ht : Flt.ge (rtiT32 r v0 v1 v2) (Flt.fin 0) = true) :
    (∃ g1, generate_random_triangles32 rs 1 g0 = some ([v0, v1, v2], g1)) ∧
    ray_triangle_intersect32 r v0 v1 v2 = rtiT32 r v0 v1 v2 ∧
    mainWith32 m rs 1 1 g0 1 seeds [0] = some ⟨1, 0, 1⟩ := by
  have hscene := generate_random_triangles32_one rs g0
  rw [← h0, ← h1, ← h2] at hscene
  have hu1 : Flt.gt (rtiU32 r v0 v1 v2) (Flt.fin 1) = false :=
    Flt.not_gt_one _ _ hu hv huv (fun q hq => Flt.mul_eq_fin _ _ q (by rw [← hq]; rfl))
  have hres : ray_triangle_intersect32 r v0 v1 v2 = rtiT32 r v0 v1 v2 := by
    rw [ray_triangle_intersect32_eq, Flt.lt_of_ge _ _ hd, Flt.lt_of_ge _ _ hu, hu1,
      Flt.lt_of_ge _ _ hv]
    have : Flt.gt (Flt.add binary32 (rtiU32 r v0 v1 v2) (rtiV32 r v0 v1 v2)) (Flt.fin 1) =
        false := Flt.lt_of_ge _ _ huv
    rw [this]
    rfl
  refine ⟨⟨_, hscene⟩, hres, ?_⟩
  have hw : worker32 m rs 1 [v0, v1, v2] (1 * 3) (seeds 0) =
      some (tally32 (ray_triangle_intersect32 (sampleRay32 m rs (seeds 0)).1 v0 v1 v2)
        ⟨0, 0⟩) := rfl
  have htally : tally32 (ray_triangle_intersect32 (sampleRay32 m rs (seeds 0)).1 v0 v1 v2)
      ⟨0, 0⟩ = ⟨1, 0⟩ := by
    rw [← hr, hres]
    simp [tally32, ht, wrapInt]
  unfold mainWith32
  rw [Nat.cast_one, hscene, Option.some_bind]
  simp only
  rw [List.mapM_cons, hw, htally, List.mapM_nil]
  simp [coordinator, forLoop, addResult, wrapInt]

/-- C10 as amended, on the run with `hitRand` and `goMath`: the scene is the
example triangle, the sampled ray is `edgeRay`, and the run ends with one
hit. -/
theorem C10_single_test32_end_to_end_witness :
    (sampleRay32 goMath hitRand 0).1 = edgeRay.toFlt ∧
    generate_random_triangles32 hitRand 1 0 =
      some ([triV0.toFlt, triV1.toFlt, triV2.toFlt], 9) ∧
    ray_triangle_intersect32 edgeRay.toFlt triV0.toFlt triV1.toFlt triV2.toFlt =
      rtiT32 edgeRay.toFlt triV0.toFlt triV1.toFlt triV2.toFlt ∧
    mainWith32 goMath hitRand 1 1 0 1 (fun _ => 0) [0] = some ⟨1, 0, 1⟩ :=
  ⟨by decide!, by decide!,
   (C10_single_test32_end_to_end goMath hitRand 0 (fun _ => 0) triV0.toFlt triV1.toFlt
    triV2.toFlt edgeRay.toFlt (by decide!) (by decide!) (by decide!) (by decide!) (by decide!)
    (by decide!) (by decide!) (by decide!) (by decide!)).2⟩

/-- One component of `random_vertex` in `float32`: for a draw `d` that is a
`float32` in `[0, 1)` the product `d * 2` is exact, and the component is the
rounding of `2 * d - 1`, a number in `[-1, 1)`. -/
theorem component32 (d : ℚ) (hr : roundTo binary32 d = Flt.fin d) (h0 : 0 ≤ d) (h1 : d < 1) :
    ∃ x, Flt.sub binary32 (Flt.mul binary32 (Flt.fin d) (Flt.fin 2)) (Flt.fin 1) = Flt.fin x ∧
      roundTo binary32 (2 * d - 1) = Flt.fin x ∧ -1 ≤ x ∧ x < 1 := by
  have hdbl : roundTo binary32 (d * 2) = Flt.fin (d * 2) := by
    rw [mul_comm]
    exact roundTo32_double d hr (by rw [abs_lt]; constructor <;> linarith)
  have hle := float32_lt_one d hr h1
  obtain ⟨y, hy, hy1, hy2⟩ := roundTo32_range (2 * d - 1) (by linarith) (by linarith)
  refine ⟨y, ?_, hy, hy1, ?_⟩
  · have hmul : Flt.mul binary32 (Flt.fin d) (Flt.fin 2) = Flt.fin (d * 2) := hdbl
    rw [hmul]
    show roundTo binary32 (d * 2 + -1) = _
    rw [show d * 2 + -1 = 2 * d - 1 by ring]
    exact hy
  · have : (0 : ℚ) < 1 / 2 ^ 23 := by norm_num
    linarith

/-- C15 fails as stated: the draw `2^-30` is a `float32` in `[0, 1)`, and the
component made from it is the `float32` value `-1`, not `2 * 2^-30 - 1`. -/
theorem C15_counterexample :
    roundTo binary32 (1 / 2 ^ 30) = Flt.fin (1 / 2 ^ 30) ∧
    (0 : ℚ) ≤ 1 / 2 ^ 30 ∧ (1 / 2 ^ 30 : ℚ) < 1 ∧
    (random_vertex32 tinyRand 0).1.x = Flt.fin (-1) ∧
    (2 * (1 / 2 ^ 30) - 1 : ℚ) ≠ -1 := by
  decide!

/-- C15 as amended. Vertex component range in `float32`: given that every
draw of the random source is a `float32` in `[0, 1)`, every component `x`,
`y`, `z` of every vertex made by `random_vertex` equals the `float32` rounding
of `2*draw - 1` and lies in `[-1, 1)`; and for every `numTriangles ≥ 0` with
`3 * numTriangles < 2^63`, `generate_random_triangles` returns, and every
component of every vertex of its output lies in `[-1, 1)`. -/
theorem C15_vertex_components32_in_range (rs : RandSrc Flt G)
    (hdraw : ∀ g, ∃ d, (rs.Float32 g).1 = Flt.fin d ∧ roundTo binary32 d = Flt.fin d ∧
      0 ≤ d ∧ d < 1) :
    (∀ g, ∃ dx dy dz x y z,
      (rs.Float32 g).1 = Flt.fin dx ∧
      (rs.Float32 (rs.Float32 g).2).1 = Flt.fin dy ∧
      (rs.Float32 (rs.Float32 (rs.Float32 g).2).2).1 = Flt.fin dz ∧
      (random_vertex32 rs g).1 = ⟨Flt.fin x, Flt.fin y, Flt.fin z⟩ ∧
      roundTo binary32 (2 * dx - 1) = Flt.fin x ∧
      roundTo binary32 (2 * dy - 1) = Flt.fin y ∧
      roundTo binary32 (2 * dz - 1) = Flt.fin z ∧
      (-1 ≤ x ∧ x < 1) ∧ (-1 ≤ y ∧ y < 1) ∧ (-1 ≤ z ∧ z < 1)) ∧
    (∀ (numTriangles : Int) (g : G), 0 ≤ numTriangles → numTriangles * 3 < 2 ^ 63 →
      ∃ vertices g1, generate_random_triangles32 rs numTriangles g = some (vertices, g1) ∧
        (vertices.length : Int) = 3 * numTriangles ∧
        ∀ v ∈ vertices, ∃ x y z, v = ⟨Flt.fin x, Flt.fin y, Flt.fin z⟩ ∧
          (-1 ≤ x ∧ x < 1) ∧ (-1 ≤ y ∧ y < 1) ∧ (-1 ≤ z ∧ z < 1)) := by
  have hvert : ∀ g, ∃ dx dy dz x y z,
      (rs.Float32 g).1 = Flt.fin dx ∧
      (rs.Float32 (rs.Float32 g).2).1 = Flt.fin dy ∧
      (rs.Float32 (rs.Float32 (rs.Float32 g).2).2).1 = Flt.fin dz ∧
      (random_vertex32 rs g).1 = ⟨Flt.fin x, Flt.fin y, Flt.fin z⟩ ∧
      roundTo binary32 (2 * dx - 1) = Flt.fin x ∧
      roundTo binary32 (2 * dy - 1) = Flt.fin y ∧
      roundTo binary32 (2 * dz - 1) = Flt.fin z ∧
      (-1 ≤ x ∧ x < 1) ∧ (-1 ≤ y ∧ y < 1) ∧ (-1 ≤ z ∧ z < 1) := by
    intro g
    obtain ⟨dx, ex, rx, x0, x1⟩ := hdraw g
    obtain ⟨dy, ey, ry, y0, y1⟩ := hdraw (rs.Float32 g).2
    obtain ⟨dz, ez, rz, z0, z1⟩ := hdraw (rs.Float32 (rs.Float32 g).2).2
    obtain ⟨x, cx, qx, bx⟩ := component32 dx rx x0 x1
    obtain ⟨y, cy, qy, by1⟩ := component32 dy ry y0 y1
    obtain ⟨z, cz, qz, bz⟩ := component32 dz rz z0 z1
    refine ⟨dx, dy, dz, x, y, z, ex, ey, ez, ?_, qx, qy, qz, bx, by1, bz⟩
    unfold random_vertex32
    simp only
    rw [ex, ey, ez, cx, cy, cz]
  refine ⟨hvert, ?_⟩
  intro numTriangles g hn h3
  obtain ⟨N, rfl⟩ := Int.eq_ofNat_of_zero_le hn
  obtain ⟨vertices, hgen, hlen, hall⟩ :=
    generateWith_spec (⟨Flt.fin 0, Flt.fin 0, Flt.fin 0⟩ : Vec3 Flt) (random_vertex32 rs) N g h3
  refine ⟨vertices, _, hgen, by omega, ?_⟩
  intro v hv
  obtain ⟨p, hp, hpv⟩ := List.getElem_of_mem hv
  have hp2 := hall p (by omega)
  rw [List.getElem?_eq_getElem hp, hpv] at hp2
  obtain ⟨-, -, -, x, y, z, -, -, -, hxyz, -, -, -, hb⟩ :=
    hvert (drawnState (random_vertex32 rs) g p)
  exact ⟨x, y, z, by rw [← hxyz]; exact Option.some.inj hp2, hb⟩

/-- C15 as amended, at the source whose every draw is `2^-30`: each component
is `-1`, the rounding of `2 * 2^-30 - 1`, and the vertices of two triangles
have their components in `[-1, 1)`. -/
theorem C15_vertex_components32_in_range_witness :
    (∀ g, ∃ d : ℚ, (tinyRand.Float32 g).1 = Flt.fin d ∧ roundTo binary32 d = Flt.fin d ∧
      0 ≤ d ∧ d < 1) ∧
    (random_vertex32 tinyRand 0).1 = ⟨Flt.fin (-1), Flt.fin (-1), Flt.fin (-1)⟩ ∧
    ∃ vertices g1, generate_random_triangles32 tinyRand 2 0 = some (vertices, g1) ∧
      (vertices.length : Int) = 3 * 2 ∧
      ∀ v ∈ vertices, ∃ x y z, v = ⟨Flt.fin x, Flt.fin y, Flt.fin z⟩ ∧
        (-1 ≤ x ∧ x < 1) ∧ (-1 ≤ y ∧ y < 1) ∧ (-1 ≤ z ∧ z < 1) :=
  have hdraw : ∀ g, ∃ d : ℚ, (tinyRand.Float32 g).1 = Flt.fin d ∧
      roundTo binary32 d = Flt.fin d ∧ 0 ≤ d ∧ d < 1 :=
    fun _ => ⟨1 / 2 ^ 30, rfl, by decide!, by norm_num, by norm_num⟩
  ⟨hdraw, by decide!,
   (C15_vertex_components32_in_range tinyRand hdraw).2 2 0 (by norm_num) (by norm_num)⟩

end FloatClaims

end RayTriangle
